import Mathlib

/-
Verification of the OKLCH hue-preservation post-processor
(src/utils/OKLCHPostProcessor.js, class OKLCHPostProcessor).

The algorithm is embedded shallowly: JS objects become association lists in
entry-enumeration order, JS numbers are idealised as rationals, and the four
culori primitives the processor imports (converter oklch, inGamut rgb,
clampChroma, formatHex) are an abstract interface, since the spec treats the
color library as an external collaborator. Theorems that depend on the
documented behaviour of those primitives state that behaviour as explicit
hypotheses.
-/

set_option maxHeartbeats 1000000

namespace BMTB

/-- OKLCH color value as produced by the culori oklch converter: lightness,
chroma and a hue in degrees. The hue is `none` when the JS field is
`undefined` or `NaN` (achromatic colors). -/
structure Oklch where
  l : ℚ
  c : ℚ
  h : Option ℚ
deriving DecidableEq

/-- External culori primitives used by OKLCHPostProcessor, over an abstract
type `κ` of display color values (hex strings in the app).
`toOklch` models `converter('oklch')` applied to a color value (`none` when
the value does not parse); `inGamut` models `inGamut('rgb')`; `clampChroma`
models `clampChroma(_, 'oklch')` (`none` models a falsy result, which the
source guards against); `formatHex` models `formatHex(_).toLowerCase()` as
used at both call sites; `truthy` models JS truthiness of a color value
(a hex string is falsy exactly when it is empty). -/
structure ColorOps (κ : Type) where
  toOklch : κ → Option Oklch
  inGamut : Oklch → Bool
  clampChroma : Oklch → Option Oklch
  formatHex : Oklch → κ
  truthy : κ → Bool

/-- Association list in JS object entry-enumeration order. -/
abbrev Palette (κ : Type) : Type := List (String × κ)

/-- First-match lookup, modelling JS property read `obj[k]` (own properties). -/
def lookup {α : Type} : List (String × α) → String → Option α
  | [], _ => none
  | (k₂, v) :: rest, k => if k₂ = k then some v else lookup rest k

/-- Property write `obj[k] = v`: replaces the first entry with key `k`, or
appends when the key is absent. -/
def setKey {α : Type} : List (String × α) → String → α → List (String × α)
  | [], k, v => [(k, v)]
  | (k₂, v₂) :: rest, k, v =>
      if k₂ = k then (k, v) :: rest else (k₂, v₂) :: setKey rest k v

/-- JS string-or-nullish value, distinguishing `undefined` from `null`. -/
inductive JsStrVal : Type where
  | undef : JsStrVal
  | null : JsStrVal
  | str : String → JsStrVal
deriving DecidableEq

/-- JS `a || b` for a string-or-nullish `a` and a string `b`
(`undefined`, `null` and the empty string are falsy). -/
def jsOrStr (a : JsStrVal) (b : String) : JsStrVal :=
  match a with
  | JsStrVal.str s => if s = "" then JsStrVal.str b else JsStrVal.str s
  | _ => JsStrVal.str b

/-- String a JS value coerces to when used as a property key. -/
def JsStrVal.key : JsStrVal → String
  | JsStrVal.undef => "undefined"
  | JsStrVal.null => "null"
  | JsStrVal.str s => s

/-- Static field PALETTE_MAPPING of OKLCHPostProcessor: maps surface-family
and inverse roles to their source palettes and marks scrim and shadow as
not palette-based (value `null`). Absent keys read as `undefined`. -/
def PALETTE_MAPPING : String → JsStrVal
  | "surface" => JsStrVal.str "neutral"
  | "surfaceDim" => JsStrVal.str "neutral"
  | "surfaceBright" => JsStrVal.str "neutral"
  | "surfaceContainerLowest" => JsStrVal.str "neutral"
  | "surfaceContainerLow" => JsStrVal.str "neutral"
  | "surfaceContainer" => JsStrVal.str "neutral"
  | "surfaceContainerHigh" => JsStrVal.str "neutral"
  | "surfaceContainerHighest" => JsStrVal.str "neutral"
  | "outline" => JsStrVal.str "neutralVariant"
  | "outlineVariant" => JsStrVal.str "neutralVariant"
  | "inverseSurface" => JsStrVal.str "neutral"
  | "inverseOnSurface" => JsStrVal.str "neutral"
  | "inversePrimary" => JsStrVal.str "primary"
  | "scrim" => JsStrVal.null
  | "shadow" => JsStrVal.null
  | _ => JsStrVal.undef

/-- Exact list-of-characters prefix test (used to model JS string methods
without relying on UTF-8 position arithmetic). -/
def isPre : List Char → List Char → Bool
  | [], _ => true
  | _ :: _, [] => false
  | a :: as, b :: bs => a = b && isPre as bs

/-- JS `haystack.includes(needle)` on character lists. -/
def hasSubList (needle : List Char) : List Char → Bool
  | [] => needle.isEmpty
  | c :: rest => isPre needle (c :: rest) || hasSubList needle rest

/-- JS `s.toLowerCase()` (ASCII; role names are ASCII). -/
def jsToLower (s : String) : String :=
  String.mk (s.data.map Char.toLower)

/-- JS `s.includes(t)`. -/
def jsIncludes (s t : String) : Bool :=
  hasSubList t.data s.data

/-- JS `s.startsWith(t)`. -/
def jsStartsWith (s t : String) : Bool :=
  isPre t.data s.data

/-- JS `s.endsWith(t)`. -/
def jsEndsWith (s t : String) : Bool :=
  isPre t.data.reverse s.data.reverse

/-- JS `s.substring(n)` for ASCII strings. -/
def jsDrop (s : String) (n : Nat) : String :=
  String.mk (s.data.drop n)

/-- JS `s.slice(0, -n)` for ASCII strings (`n` at most the length). -/
def jsDropRight (s : String) (n : Nat) : String :=
  String.mk (s.data.take (s.data.length - n))

/-- JS regex test `/^on[A-Z]/.test(s)`. -/
def matchOnUpper (s : String) : Bool :=
  match s.data with
  | 'o' :: 'n' :: c :: _ => 'A' ≤ c && c ≤ 'Z'
  | _ => false

/-- JS `s.charAt(0).toLowerCase() + s.slice(1)` (ASCII). -/
def lowerFirst (s : String) : String :=
  match s.data with
  | [] => ""
  | c :: rest => String.mk (c.toLower :: rest)

/-- OKLCHPostProcessor.extractPaletteName: strips an `on`-prefix and a
`Container`-suffix in both camelCase and space-separated forms, then
lowercases the first letter. -/
def extractPaletteName (colorRole : String) : String :=
  let p₁ :=
    if jsStartsWith colorRole "on " then jsDrop colorRole 3
    else if matchOnUpper colorRole then jsDrop colorRole 2
    else colorRole
  let p₂ :=
    if jsEndsWith p₁ " container" then jsDropRight p₁ 10
    else if jsEndsWith p₁ "Container" then jsDropRight p₁ 9
    else p₁
  lowerFirst p₂

/-- Decimal digit run for parseInt: `none` when no digit was consumed. -/
def parseDigits : List Char → Option Nat → Option Nat
  | [], acc => acc
  | c :: rest, acc =>
      if c.isDigit then
        parseDigits rest (some ((acc.getD 0) * 10 + (c.toNat - 48)))
      else acc

/-- Hexadecimal digit run for parseInt with an `0x` prefix. -/
def parseHexDigits : List Char → Option Nat → Option Nat
  | [], acc => acc
  | c :: rest, acc =>
      if c.isDigit then
        parseHexDigits rest (some ((acc.getD 0) * 16 + (c.toNat - 48)))
      else if 'a' ≤ c && c ≤ 'f' then
        parseHexDigits rest (some ((acc.getD 0) * 16 + (c.toNat - 87)))
      else if 'A' ≤ c && c ≤ 'F' then
        parseHexDigits rest (some ((acc.getD 0) * 16 + (c.toNat - 55)))
      else acc

/-- JS `parseInt(s)` (no radix argument): leading whitespace skipped,
optional sign, auto-detected `0x` prefix, leading digit run; `none`
models `NaN`. -/
def jsParseInt (s : String) : Option Int :=
  let l₀ := s.data.dropWhile (fun ch => ch.isWhitespace)
  let signed : Bool × List Char :=
    match l₀ with
    | '-' :: rest => (true, rest)
    | '+' :: rest => (false, rest)
    | _ => (false, l₀)
  let digits : Option Nat :=
    match signed.2 with
    | '0' :: 'x' :: rest => parseHexDigits rest none
    | '0' :: 'X' :: rest => parseHexDigits rest none
    | _ => parseDigits signed.2 none
  digits.map (fun n => if signed.1 then -(n : Int) else (n : Int))

/-- Adaptive bound from processPalette: `parseInt(tone)` in `[40, 60]`
gives 5 degrees, anything else (including NaN) gives 8. -/
def maxHueDeviation (tone : String) : Nat :=
  match jsParseInt tone with
  | some n => if 40 ≤ n ∧ n ≤ 60 then 5 else 8
  | none => 8

/-- Deviation and sign pairs tried by the findBestGamutColor search loop, in
loop order: deviation ascending from 1 to the bound, sign -1 before +1. -/
def devPairs : Nat → List (Nat × Int)
  | 0 => []
  | n + 1 => devPairs n ++ [(n + 1, -1), (n + 1, 1)]

variable {κ : Type}

/-- Inner loop of findBestGamutColor: for each candidate hue
`referenceHue + deviation * sign`, accept immediately when the original
chroma fits the gamut, otherwise keep the chroma-clamped candidate when it
retains strictly more chroma than the best so far. -/
def findBestLoop (E : ColorOps κ) (originalColor : Oklch) (referenceHue : ℚ) :
    List (Nat × Int) → Oklch → ℚ → Oklch × ℚ
  | [], best, bestDev => (best, bestDev)
  | (d, s) :: rest, best, bestDev =>
      let testHue : ℚ := referenceHue + (d : ℚ) * (s : ℚ)
      let testColor : Oklch := ⟨originalColor.l, originalColor.c, some testHue⟩
      if E.inGamut testColor then (testColor, (d : ℚ))
      else
        match E.clampChroma testColor with
        | some clamped =>
            if clamped.c > best.c then
              findBestLoop E originalColor referenceHue rest clamped (d : ℚ)
            else findBestLoop E originalColor referenceHue rest best bestDev
        | none => findBestLoop E originalColor referenceHue rest best bestDev

/-- OKLCHPostProcessor.findBestGamutColor: try the exact reference hue with
the original lightness and chroma; fall back to chroma clamping at the exact
hue; then search hue deviations up to the bound for better chroma retention.
Returns the chosen color and its hue deviation. -/
def findBestGamutColor (E : ColorOps κ) (originalColor : Oklch)
    (referenceHue : ℚ) (maxDev : Nat) : Oklch × ℚ :=
  let testColor : Oklch := ⟨originalColor.l, originalColor.c, some referenceHue⟩
  if E.inGamut testColor then (testColor, 0)
  else
    let clampedAtExactHue := E.clampChroma testColor
    let bestColor := clampedAtExactHue.getD originalColor
    let bestDev : ℚ :=
      if clampedAtExactHue.isSome then 0
      else |originalColor.h.getD 0 - referenceHue|
    findBestLoop E originalColor referenceHue (devPairs maxDev) bestColor bestDev

/-- Tone preference order of the reference-hue fallback scan in
processPalette; the source writes the numbers 50, 40, 60, 30, 70, 20, 80,
10, 90 and converts each with `String(tone)`. -/
def tonePreference : List String :=
  ["50", "40", "60", "30", "70", "20", "80", "10", "90"]

/-- Palette read guarded by the `if (!palette[toneKey]) continue` truthiness
check. -/
def lookupTruthy (E : ColorOps κ) (palette : Palette κ) (toneKey : String) :
    Option κ :=
  match lookup palette toneKey with
  | some v => if E.truthy v then some v else none
  | none => none

/-- Reference hue from an explicit source color: used only when the source
color is truthy, converts, and has a defined non-NaN hue. -/
def sourceHue (E : ColorOps κ) (sourceColor : Option κ) : Option ℚ :=
  match sourceColor with
  | some k =>
      if E.truthy k then
        match E.toOklch k with
        | some o => o.h
        | none => none
      else none
  | none => none

/-- Fallback scan of processPalette over the tone preference list, carrying
the running `maxChroma` (started at -1) and `referenceHue` (started at
null): the first tone with chroma above 0.02 wins and stops the scan;
otherwise each tone with a strictly larger chroma than any seen so far
replaces the running reference hue. -/
def scanTones (E : ColorOps κ) (palette : Palette κ) :
    List String → ℚ → Option ℚ → Option ℚ
  | [], _, ref => ref
  | t :: rest, maxChroma, ref =>
      match lookupTruthy E palette t with
      | none => scanTones E palette rest maxChroma ref
      | some hex =>
          match E.toOklch hex with
          | none => scanTones E palette rest maxChroma ref
          | some o =>
              match o.h with
              | none => scanTones E palette rest maxChroma ref
              | some hue =>
                  if o.c > 1 / 50 then some hue
                  else if o.c > maxChroma then
                    scanTones E palette rest o.c (some hue)
                  else scanTones E palette rest maxChroma ref

/-- Reference-hue resolution of processPalette: explicit source color first,
then the fallback scan. -/
def resolveRefHue (E : ColorOps κ) (palette : Palette κ)
    (sourceColor : Option κ) : Option ℚ :=
  match sourceHue E sourceColor with
  | some hue => some hue
  | none => scanTones E palette tonePreference (-1) none

/-- Per-tone body of the processPalette loop: keep the original value when
conversion fails, otherwise format the color found by findBestGamutColor
under the tone-adaptive deviation bound. -/
def paletteStep (E : ColorOps κ) (referenceHue : ℚ) (tv : String × κ) :
    String × κ :=
  match E.toOklch tv.2 with
  | none => tv
  | some oklchColor =>
      (tv.1, E.formatHex
        (findBestGamutColor E oklchColor referenceHue
          (maxHueDeviation tv.1)).1)

/-- OKLCHPostProcessor.processPalette: resolve a reference hue (source color
first, then the tone scan); when none resolves, return the palette
unmodified; otherwise rebuild every tone through findBestGamutColor. -/
def processPalette (E : ColorOps κ) (palette : Palette κ)
    (_paletteName : String) (sourceColor : Option κ) : Palette κ :=
  match resolveRefHue E palette sourceColor with
  | none => palette
  | some referenceHue => palette.map (paletteStep E referenceHue)

/-- Closest-tone search of regenerateSchemeColors: scans the original
palette entries in order carrying the best (tone, lightness difference)
pair; strictly smaller differences win, so the first minimiser is kept. -/
def closestToneAux (E : ColorOps κ) (lightness : ℚ) :
    Palette κ → Option (String × ℚ) → Option (String × ℚ)
  | [], best => best
  | (tone, hexColor) :: rest, best =>
      match E.toOklch hexColor with
      | none => closestToneAux E lightness rest best
      | some o =>
          let diff := |o.l - lightness|
          match best with
          | none => closestToneAux E lightness rest (some (tone, diff))
          | some b =>
              if diff < b.2 then closestToneAux E lightness rest (some (tone, diff))
              else closestToneAux E lightness rest best

/-- Matched tone key of the closest-tone search. -/
def closestTone (E : ColorOps κ) (palette : Palette κ) (lightness : ℚ) :
    Option String :=
  (closestToneAux E lightness palette none).map Prod.fst

/-- Per-role body of the regenerateSchemeColors loop. Result meaning:
`none` is the TypeError the source would raise when clampChroma returns a
falsy value at the unguarded call site; `some none` means the role is
skipped (no assignment); `some (some v)` means the role is assigned `v`. -/
def regenRole (E : ColorOps κ) (originalPalettes processedPalettes :
    List (String × Palette κ)) (colorRole : String) (originalHex : κ) :
    Option (Option κ) :=
  if jsIncludes (jsToLower colorRole) "fixed" then some none
  else
    let paletteName := extractPaletteName colorRole
    let mappedPaletteName := jsOrStr (PALETTE_MAPPING paletteName) paletteName
    if mappedPaletteName = JsStrVal.null then some none
    else
      let mk₀ := mappedPaletteName.key
      match lookup originalPalettes mk₀, lookup processedPalettes mk₀ with
      | some originalPal, some processedPal =>
          (match E.toOklch originalHex with
          | none => some none
          | some originalOklch =>
              match closestTone E originalPal originalOklch.l with
              | none => some none
              | some tone =>
                  match lookup processedPal tone with
                  | some processedHex =>
                      if E.truthy processedHex then
                        match E.toOklch processedHex with
                        | some processedOklch =>
                            let finalColor : Oklch :=
                              ⟨originalOklch.l, originalOklch.c, processedOklch.h⟩
                            if E.inGamut finalColor then
                              some (some (E.formatHex finalColor))
                            else
                              match E.clampChroma finalColor with
                              | some clamped => some (some (E.formatHex clamped))
                              | none => none
                        | none => some (some processedHex)
                      else some none
                  | none => some none)
      | _, _ => some none

/-- Loop of regenerateSchemeColors over the entries of the original scheme,
updating a copy; aborts with `none` when a role raises. -/
def regenSchemeLoop (E : ColorOps κ) (originalPalettes processedPalettes :
    List (String × Palette κ)) :
    List (String × κ) → List (String × κ) → Option (List (String × κ))
  | [], regenerated => some regenerated
  | (colorRole, originalHex) :: rest, regenerated =>
      match regenRole E originalPalettes processedPalettes colorRole originalHex with
      | none => none
      | some none => regenSchemeLoop E originalPalettes processedPalettes rest regenerated
      | some (some v) =>
          regenSchemeLoop E originalPalettes processedPalettes rest
            (setKey regenerated colorRole v)

/-- OKLCHPostProcessor.regenerateSchemeColors on one scheme object
(`none` models an absent or falsy scheme, returned as-is). -/
def regenerateSchemeColors (E : ColorOps κ) (scheme : Option (List (String × κ)))
    (originalPalettes processedPalettes : List (String × Palette κ)) :
    Option (Option (List (String × κ))) :=
  match scheme with
  | none => some none
  | some sch =>
      (regenSchemeLoop E originalPalettes processedPalettes sch sch).map some

/-- Light and dark scheme objects, each possibly absent. -/
structure SchemePair (κ : Type) where
  light : Option (List (String × κ))
  dark : Option (List (String × κ))
deriving DecidableEq

/-- Input and output record of processColorScheme. `extra` stands for any
further top-level fields, which the deep clone copies verbatim. -/
structure ColorScheme (κ : Type) where
  tonalPalettes : Option (List (String × Palette κ))
  schemes : Option (SchemePair κ)
  sourceColors : Option (List (String × κ))
  extra : List (String × String)
deriving DecidableEq

/-- Options of processColorScheme with their source defaults. -/
structure ProcessOptions where
  preserveHue : Bool := true
  affectedPalettes : List String := ["primary", "secondary", "tertiary"]
  neutralHueFromPrimary : Bool := false

/-- JS `a || b` over optional color values with engine truthiness. -/
def jsOrVal (E : ColorOps κ) (a b : Option κ) : Option κ :=
  match a with
  | some k => if E.truthy k then some k else b
  | none => b

/-- Palette-processing loop of processColorScheme over affectedPalettes:
each name present in the current palette record is replaced by its
processed version (the neutralHueFromPrimary option redirects the source
color of neutral and neutralVariant to the primary source color). -/
def processAffected (E : ColorOps κ) (sourceColors : List (String × κ))
    (neutralFromPrimary : Bool) :
    List String → List (String × Palette κ) → List (String × Palette κ)
  | [], cur => cur
  | paletteName :: rest, cur =>
      match lookup cur paletteName with
      | none => processAffected E sourceColors neutralFromPrimary rest cur
      | some pal =>
          let src₀ := lookup sourceColors paletteName
          let src :=
            if neutralFromPrimary &&
                (paletteName = "neutral" || paletteName = "neutralVariant") then
              jsOrVal E (lookup sourceColors "primary") src₀
            else src₀
          processAffected E sourceColors neutralFromPrimary rest
            (setKey cur paletteName (processPalette E pal paletteName src))

/-- OKLCHPostProcessor.processColorScheme: passthrough when disabled or when
tonalPalettes is missing; otherwise process the affected palettes, rebuild
the light and dark schemes from the original and processed palettes, and
delete the sourceColors field from the result. `none` models a thrown
TypeError propagating out of regenerateSchemeColors. -/
def processColorScheme (E : ColorOps κ) (colorScheme : ColorScheme κ)
    (options : ProcessOptions) : Option (ColorScheme κ) :=
  if !options.preserveHue then some colorScheme
  else
    match colorScheme.tonalPalettes with
    | none => some colorScheme
    | some pals =>
        let originalPalettes := pals
        let sourceColors := colorScheme.sourceColors.getD []
        let processedPals := processAffected E sourceColors
          options.neutralHueFromPrimary options.affectedPalettes pals
        match colorScheme.schemes with
        | none =>
            some { tonalPalettes := some processedPals, schemes := none,
                   sourceColors := none, extra := colorScheme.extra }
        | some sch =>
            match regenerateSchemeColors E sch.light originalPalettes processedPals,
                  regenerateSchemeColors E sch.dark originalPalettes processedPals with
            | some light₂, some dark₂ =>
                some { tonalPalettes := some processedPals,
                       schemes := some ⟨light₂, dark₂⟩,
                       sourceColors := none, extra := colorScheme.extra }
            | _, _ => none

/-! Concrete color engines used to instantiate the abstract culori
interface in witnesses and counterexamples. `idEngine` treats every color
as displayable and keeps values unchanged; `gamutEngine` has a nontrivial
gamut (chroma at most 10) with a chroma-clamping operation satisfying the
documented culori contracts. -/

/-- Engine whose gamut test always passes and whose conversions are the
identity; it satisfies every culori contract trivially. -/
def idEngine : ColorOps Oklch where
  toOklch := fun k => some k
  inGamut := fun _ => true
  clampChroma := fun c => some c
  formatHex := fun c => c
  truthy := fun _ => true

/-- Engine whose gamut is the set of colors with chroma at most 10;
conversion clips chroma into gamut, clamping reduces chroma into gamut
preserving lightness and hue. -/
def gamutEngine : ColorOps Oklch where
  toOklch := fun k => some ⟨k.l, min |k.c| 10, k.h⟩
  inGamut := fun c => decide (c.c ≤ 10)
  clampChroma := fun c => some ⟨c.l, min c.c 10, c.h⟩
  formatHex := fun c => c
  truthy := fun _ => true

/-- Elements of the deviation search list have deviation between 1 and the
bound and sign plus or minus one. -/
theorem devPairs_mem (m : Nat) (p : Nat × Int) (hp : p ∈ devPairs m) :
    p.1 ≤ m ∧ (p.2 = -1 ∨ p.2 = 1) := by
  induction m with
  | zero => simp [devPairs] at hp
  | succ n ih =>
      simp only [devPairs, List.mem_append, List.mem_cons,
        List.not_mem_nil, or_false] at hp
      rcases hp with hp | hp | hp
      · rcases ih hp with ⟨h₁, h₂⟩
        exact ⟨Nat.le_succ_of_le h₁, h₂⟩
      · subst hp; exact ⟨Nat.le_refl _, Or.inl rfl⟩
      · subst hp; exact ⟨Nat.le_refl _, Or.inr rfl⟩

/-- Candidate hues of the form `ref + d * s` with `d ≤ m` and `s = ±1`
deviate from `ref` by at most `m`. -/
theorem devHue_bound (ref : ℚ) (d : Nat) (s : Int) (m : Nat)
    (hdm : d ≤ m) (hs : s = -1 ∨ s = 1) :
    |ref + (d : ℚ) * (s : ℚ) - ref| ≤ (m : ℚ) := by
  have hd : ((d : ℚ)) ≤ (m : ℚ) := by exact_mod_cast hdm
  have h0 : (0 : ℚ) ≤ (d : ℚ) := by positivity
  rcases hs with hs | hs <;> subst hs <;> simp [abs_of_nonneg, h0, hdm]

/-- Hue bound invariant of the findBestGamutColor search loop: when the
incoming best color has a defined hue within `m` degrees of the reference
and every searched deviation is at most `m`, the loop result keeps a
defined hue within `m` degrees of the reference (given that chroma
clamping preserves hue). -/
theorem findBestLoop_hue (E : ColorOps κ) (orig : Oklch) (ref : ℚ) (m : Nat)
    (hcl : ∀ c c₂, E.clampChroma c = some c₂ → c₂.h = c.h)
    (l : List (Nat × Int)) (hl : ∀ p ∈ l, p.1 ≤ m ∧ (p.2 = -1 ∨ p.2 = 1))
    (best : Oklch) (bestDev : ℚ)
    (hb : ∃ hb₀, best.h = some hb₀ ∧ |hb₀ - ref| ≤ (m : ℚ)) :
    ∃ h₂, (findBestLoop E orig ref l best bestDev).1.h = some h₂ ∧
      |h₂ - ref| ≤ (m : ℚ) := by
  induction l generalizing best bestDev with
  | nil => simpa [findBestLoop] using hb
  | cons p rest ih =>
      obtain ⟨hdm, hsgn⟩ := hl p (List.mem_cons_self _ _)
      obtain ⟨d, s⟩ := p
      have hl₂ : ∀ q ∈ rest, q.1 ≤ m ∧ (q.2 = -1 ∨ q.2 = 1) :=
        fun q hq => hl q (List.mem_cons_of_mem _ hq)
      simp only [findBestLoop]
      split
      · exact ⟨ref + (d : ℚ) * (s : ℚ), rfl, devHue_bound ref d s m hdm hsgn⟩
      · split
        · rename_i clamped heq
          split
          · exact ih hl₂ clamped (d : ℚ)
              ⟨ref + (d : ℚ) * (s : ℚ), by rw [hcl _ _ heq],
                devHue_bound ref d s m hdm hsgn⟩
          · exact ih hl₂ best bestDev hb
        · exact ih hl₂ best bestDev hb

/-- Hue bound for findBestGamutColor: when chroma clamping preserves hue
and never fails, the chosen color has a defined hue within the deviation
bound of the reference hue. -/
theorem findBestGamutColor_hue (E : ColorOps κ) (col : Oklch) (ref : ℚ)
    (m : Nat) (hcl : ∀ c c₂, E.clampChroma c = some c₂ → c₂.h = c.h)
    (hcs : ∀ c, (E.clampChroma c).isSome = true) :
    ∃ h₂, (findBestGamutColor E col ref m).1.h = some h₂ ∧
      |h₂ - ref| ≤ (m : ℚ) := by
  simp only [findBestGamutColor]
  split
  · exact ⟨ref, rfl, by simp⟩
  · obtain ⟨cl, hcleq⟩ := Option.isSome_iff_exists.mp (hcs ⟨col.l, col.c, some ref⟩)
    refine findBestLoop_hue E col ref m hcl (devPairs m)
      (fun p hp => devPairs_mem m p hp) _ _ ?_
    refine ⟨ref, ?_, by simp⟩
    rw [hcleq]
    simp only [Option.getD_some]
    rw [hcl _ _ hcleq]

/-- C1: for every palette whose reference hue resolves and every tone whose
color converts to OKLCH, the processed palette contains, at that tone key,
the formatted best-gamut color, and that color carries a defined hue within
the configured maximum deviation of the reference hue: 5 degrees when the
tone key parses into `[40, 60]` and 8 degrees otherwise (assuming the
culori chroma clamp preserves hue and never fails, per its contract). -/
theorem claim_C1_hue_convergence (E : ColorOps κ) (palette : Palette κ)
    (paletteName : String) (sourceColor : Option κ) (referenceHue : ℚ)
    (tone : String) (hex : κ) (col : Oklch)
    (hres : resolveRefHue E palette sourceColor = some referenceHue)
    (hcl : ∀ c c₂, E.clampChroma c = some c₂ → c₂.h = c.h)
    (hcs : ∀ c, (E.clampChroma c).isSome = true)
    (hmem : (tone, hex) ∈ palette) (hconv : E.toOklch hex = some col) :
    (tone, E.formatHex
        (findBestGamutColor E col referenceHue (maxHueDeviation tone)).1) ∈
      processPalette E palette paletteName sourceColor ∧
    ∃ h₂, (findBestGamutColor E col referenceHue (maxHueDeviation tone)).1.h
        = some h₂ ∧ |h₂ - referenceHue| ≤ (maxHueDeviation tone : ℚ) := by
  constructor
  · have hstep : paletteStep E referenceHue (tone, hex) =
        (tone, E.formatHex
          (findBestGamutColor E col referenceHue (maxHueDeviation tone)).1) := by
      simp [paletteStep, hconv]
    unfold processPalette
    rw [hres]
    exact hstep ▸ List.mem_map_of_mem (paletteStep E referenceHue) hmem
  · exact findBestGamutColor_hue E col referenceHue (maxHueDeviation tone)
      hcl hcs

/-- Witness for C1 at a singleton palette with an explicit source color of
hue 30, on the clamping engine. -/
theorem claim_C1_hue_convergence_witness :
    (("50", gamutEngine.formatHex
        (findBestGamutColor gamutEngine ⟨1, 5, some 30⟩ 30
          (maxHueDeviation "50")).1) ∈
      processPalette gamutEngine [("50", (⟨1, 5, some 30⟩ : Oklch))]
        "primary" (some ⟨1, 5, some 30⟩)) ∧
    ∃ h₂, (findBestGamutColor gamutEngine ⟨1, 5, some 30⟩ 30
        (maxHueDeviation "50")).1.h = some h₂ ∧
      |h₂ - 30| ≤ (maxHueDeviation "50" : ℚ) :=
  claim_C1_hue_convergence gamutEngine [("50", ⟨1, 5, some 30⟩)] "primary"
    (some ⟨1, 5, some 30⟩) 30 "50" ⟨1, 5, some 30⟩ ⟨1, 5, some 30⟩ rfl
    (fun c c₂ h => by
      simp only [gamutEngine, Option.some.injEq] at h
      rw [← h])
    (fun c => rfl) (List.mem_singleton.mpr rfl) rfl

/-- C8: when a tone color already has exactly the reference hue and lies in
the display gamut, findBestGamutColor returns it unchanged with zero hue
deviation: the selected candidate keeps the original lightness and chroma
and carries the reference hue. -/
theorem claim_C8_exact_hue_idempotent (E : ColorOps κ) (col : Oklch)
    (referenceHue : ℚ) (maxDev : Nat) (hh : col.h = some referenceHue)
    (hg : E.inGamut col = true) :
    findBestGamutColor E col referenceHue maxDev = (col, 0) := by
  have hcol : (⟨col.l, col.c, some referenceHue⟩ : Oklch) = col := by
    cases col
    simp only [Oklch.mk.injEq, and_true, true_and]
    exact hh.symm
  simp [findBestGamutColor, hcol, hg]

/-- Witness for C8 on the clamping engine at an in-gamut color of hue 30. -/
theorem claim_C8_exact_hue_idempotent_witness :
    findBestGamutColor gamutEngine ⟨1, 5, some 30⟩ 30 5 =
      (⟨1, 5, some 30⟩, 0) :=
  claim_C8_exact_hue_idempotent gamutEngine ⟨1, 5, some 30⟩ 30 5 rfl
    (by decide)

/-! Spec-side description of reference-hue resolution (section 4.1 step 1
of the spec), to be compared with the source-side scan. -/

/-- Tones usable by the fallback scan, in preference order, each with its
chroma and hue: the preference tones that are present with a truthy value,
convert to OKLCH and have a defined hue. Stated from the spec wording for
the refinement comparison. -/
def usableTones (E : ColorOps κ) (palette : Palette κ) :
    List String → List (String × ℚ × ℚ)
  | [] => []
  | t :: rest =>
      match lookupTruthy E palette t with
      | none => usableTones E palette rest
      | some hex =>
          match E.toOklch hex with
          | none => usableTones E palette rest
          | some o =>
              match o.h with
              | none => usableTones E palette rest
              | some hue => (t, o.c, hue) :: usableTones E palette rest

/-- Hue of the first usable tone whose chroma exceeds the 0.02 threshold. -/
def firstChromaticHue : List (String × ℚ × ℚ) → Option ℚ
  | [] => none
  | x :: rest => if x.2.1 > 1 / 50 then some x.2.2 else firstChromaticHue rest

/-- Running strict maximum of chroma over usable tones, keeping the first
maximiser (chroma, hue). -/
def maxChromaAux : ℚ × ℚ → List (String × ℚ × ℚ) → ℚ × ℚ
  | best, [] => best
  | best, x :: rest =>
      if x.2.1 > best.1 then maxChromaAux (x.2.1, x.2.2) rest
      else maxChromaAux best rest

/-- Spec description of the fallback hue scan: the hue of the first usable
tone above the chroma threshold; otherwise the hue of the usable tone with
the strictly largest chroma; otherwise nothing. -/
def specScanHue (E : ColorOps κ) (palette : Palette κ)
    (pref : List String) : Option ℚ :=
  match firstChromaticHue (usableTones E palette pref) with
  | some hue => some hue
  | none =>
      match usableTones E palette pref with
      | [] => none
      | x :: rest => some (maxChromaAux (x.2.1, x.2.2) rest).2

/-- Source-side scan restricted to the usable-tone list, same state. -/
def scanStateT : List (String × ℚ × ℚ) → ℚ → Option ℚ → Option ℚ
  | [], _, ref => ref
  | x :: rest, maxChroma, ref =>
      if x.2.1 > 1 / 50 then some x.2.2
      else if x.2.1 > maxChroma then scanStateT rest x.2.1 (some x.2.2)
      else scanStateT rest maxChroma ref

/-- Tail of the fallback scan after the threshold has failed everywhere:
keeps the running strict maximum state. -/
def maxFrom : ℚ → Option ℚ → List (String × ℚ × ℚ) → Option ℚ
  | _, ref, [] => ref
  | m, ref, x :: rest =>
      if x.2.1 > m then maxFrom x.2.1 (some x.2.2) rest
      else maxFrom m ref rest

/-- The source scan equals its restriction to the usable-tone list. -/
theorem scanTones_eq_scanStateT (E : ColorOps κ) (palette : Palette κ)
    (l : List String) (m : ℚ) (ref : Option ℚ) :
    scanTones E palette l m ref = scanStateT (usableTones E palette l) m ref := by
  induction l generalizing m ref with
  | nil => rfl
  | cons t rest ih =>
      cases hlt : lookupTruthy E palette t with
      | none =>
          simp only [scanTones, usableTones, hlt]
          exact ih m ref
      | some hex =>
          cases hok : E.toOklch hex with
          | none =>
              simp only [scanTones, usableTones, hlt, hok]
              exact ih m ref
          | some o =>
              cases hh : o.h with
              | none =>
                  simp only [scanTones, usableTones, hlt, hok, hh]
                  exact ih m ref
              | some hue =>
                  simp only [scanTones, usableTones, hlt, hok, hh, scanStateT]
                  split
                  · rfl
                  · split
                    · exact ih _ _
                    · exact ih m ref

/-- Splitting the scan into its threshold phase and its maximum phase. -/
theorem scanStateT_split (u : List (String × ℚ × ℚ)) (m : ℚ) (ref : Option ℚ) :
    scanStateT u m ref =
      match firstChromaticHue u with
      | some hue => some hue
      | none => maxFrom m ref u := by
  induction u generalizing m ref with
  | nil => rfl
  | cons x rest ih =>
      simp only [scanStateT, firstChromaticHue, maxFrom]
      split
      · rfl
      · split
        · exact ih _ _
        · exact ih m ref

/-- Maximum phase started from an installed state. -/
theorem maxFrom_installed (rest : List (String × ℚ × ℚ)) (c hue : ℚ) :
    maxFrom c (some hue) rest = some (maxChromaAux (c, hue) rest).2 := by
  induction rest generalizing c hue with
  | nil => rfl
  | cons y ys ih =>
      simp only [maxFrom, maxChromaAux]
      split
      · exact ih _ _
      · exact ih c hue

/-- Usable tones carry the chroma of a converted color, hence nonnegative
chroma under the conversion contract. -/
theorem usableTones_chroma_nonneg (E : ColorOps κ) (palette : Palette κ)
    (hchroma : ∀ k c, E.toOklch k = some c → 0 ≤ c.c) (l : List String) :
    ∀ x ∈ usableTones E palette l, 0 ≤ x.2.1 := by
  induction l with
  | nil => intro x hx; simp [usableTones] at hx
  | cons t rest ih =>
      intro x hx
      cases hlt : lookupTruthy E palette t with
      | none =>
          simp only [usableTones, hlt] at hx
          exact ih x hx
      | some hex =>
          cases hok : E.toOklch hex with
          | none =>
              simp only [usableTones, hlt, hok] at hx
              exact ih x hx
          | some o =>
              cases hh : o.h with
              | none =>
                  simp only [usableTones, hlt, hok, hh] at hx
                  exact ih x hx
              | some hue =>
                  simp only [usableTones, hlt, hok, hh] at hx
                  rcases List.mem_cons.mp hx with hx | hx
                  · subst hx; exact hchroma hex o hok
                  · exact ih x hx

/-- C6: reference-hue resolution follows the claimed order. An explicit
truthy source color converting to a defined hue supplies the reference
hue; otherwise the scan over the fixed preference order 50, 40, 60, 30,
70, 20, 80, 10, 90 picks the first tone with chroma above 0.02, falling
back to the scanned tone with the strictly highest chroma; and when no
reference hue resolves the palette is returned unmodified. The chroma
hypothesis is the culori contract that converted colors have nonnegative
chroma. -/
theorem claim_C6_reference_hue_resolution (E : ColorOps κ)
    (palette : Palette κ) (paletteName : String) (sourceColor : Option κ)
    (hchroma : ∀ k c, E.toOklch k = some c → 0 ≤ c.c) :
    (∀ k o hue, sourceColor = some k → E.truthy k = true →
      E.toOklch k = some o → o.h = some hue →
      resolveRefHue E palette sourceColor = some hue) ∧
    (sourceHue E sourceColor = none →
      resolveRefHue E palette sourceColor =
        specScanHue E palette tonePreference) ∧
    (resolveRefHue E palette sourceColor = none →
      processPalette E palette paletteName sourceColor = palette) := by
  refine ⟨?_, ?_, ?_⟩
  · intro k o hue hk htr hok hh
    subst hk
    simp [resolveRefHue, sourceHue, htr, hok, hh]
  · intro hsrc
    simp only [resolveRefHue, hsrc]
    rw [scanTones_eq_scanStateT, scanStateT_split]
    simp only [specScanHue]
    cases hfc : firstChromaticHue (usableTones E palette tonePreference) with
    | some hue => rfl
    | none =>
        cases hu : usableTones E palette tonePreference with
        | nil => rfl
        | cons x rest =>
            have hx0 : 0 ≤ x.2.1 := by
              refine usableTones_chroma_nonneg E palette hchroma
                tonePreference x ?_
              rw [hu]; exact List.mem_cons_self _ _
            simp only [maxFrom]
            rw [if_pos (by linarith : x.2.1 > (-1 : ℚ))]
            exact maxFrom_installed rest x.2.1 x.2.2
  · intro hnone
    simp [processPalette, hnone]

/-- Witness for C6 on the clamping engine over a singleton palette without
a source color. -/
theorem claim_C6_reference_hue_resolution_witness :
    (∀ k o hue, (none : Option Oklch) = some k → gamutEngine.truthy k = true →
      gamutEngine.toOklch k = some o → o.h = some hue →
      resolveRefHue gamutEngine [("50", (⟨1, 5, some 30⟩ : Oklch))] none = some hue) ∧
    (sourceHue gamutEngine (none : Option Oklch) = none →
      resolveRefHue gamutEngine [("50", (⟨1, 5, some 30⟩ : Oklch))] none =
        specScanHue gamutEngine [("50", (⟨1, 5, some 30⟩ : Oklch))] tonePreference) ∧
    (resolveRefHue gamutEngine [("50", (⟨1, 5, some 30⟩ : Oklch))] none = none →
      processPalette gamutEngine [("50", (⟨1, 5, some 30⟩ : Oklch))] "primary" none =
        [("50", (⟨1, 5, some 30⟩ : Oklch))]) :=
  claim_C6_reference_hue_resolution gamutEngine
    [("50", (⟨1, 5, some 30⟩ : Oklch))] "primary" none
    (fun k c h => by
      injection h with h
      rw [← h]
      exact le_min (abs_nonneg _) (by norm_num))

/-! Association-list lemmas shared by the frame and key-set theorems. -/

/-- Looking up a present key yields a value of the list. -/
theorem lookup_mem_values {α : Type} (l : List (String × α)) (k : String)
    (v : α) (h : lookup l k = some v) : v ∈ l.map Prod.snd := by
  induction l with
  | nil => simp [lookup] at h
  | cons p rest ih =>
      simp only [lookup] at h
      by_cases hk : p.1 = k
      · rw [if_pos hk] at h
        simp only [List.map_cons, List.mem_cons]
        exact Or.inl (Option.some.inj h).symm
      · rw [if_neg hk] at h
        exact List.mem_cons_of_mem _ (ih h)

/-- A successful lookup means the key occurs in the key list. -/
theorem lookup_some_mem_keys {α : Type} (l : List (String × α)) (k : String)
    (v : α) (h : lookup l k = some v) : k ∈ l.map Prod.fst := by
  induction l with
  | nil => simp [lookup] at h
  | cons p rest ih =>
      simp only [lookup] at h
      by_cases hk : p.1 = k
      · simp [hk]
      · rw [if_neg hk] at h
        exact List.mem_cons_of_mem _ (ih h)

/-- Writing at a present key preserves the key list. -/
theorem setKey_keys {α : Type} (l : List (String × α)) (k : String) (v : α)
    (hk : k ∈ l.map Prod.fst) :
    (setKey l k v).map Prod.fst = l.map Prod.fst := by
  induction l with
  | nil => simp at hk
  | cons p rest ih =>
      simp only [setKey]
      by_cases hpk : p.1 = k
      · rw [if_pos hpk]
        simp [hpk]
      · rw [if_neg hpk]
        simp only [List.map_cons, List.cons.injEq, true_and]
        refine ih ?_
        have hk₂ : k ∈ p.1 :: List.map Prod.fst rest := by
          simpa only [List.map_cons] using hk
        rcases List.mem_cons.mp hk₂ with h | h
        · exact absurd h.symm hpk
        · exact h


/-- Lookup after writing a different key is unchanged. -/
theorem lookup_setKey_ne {α : Type} (l : List (String × α)) (k k₂ : String)
    (v : α) (hne : k₂ ≠ k) : lookup (setKey l k v) k₂ = lookup l k₂ := by
  induction l with
  | nil =>
      simp only [setKey, lookup]
      rw [if_neg (fun h => hne h.symm)]
  | cons p rest ih =>
      simp only [setKey]
      by_cases hpk : p.1 = k
      · rw [if_pos hpk]
        simp only [lookup]
        rw [if_neg (fun h => hne h.symm),
          if_neg (fun h => hne (by rw [← h, hpk]))]
      · rw [if_neg hpk]
        simp only [lookup]
        by_cases hpk₂ : p.1 = k₂
        · rw [if_pos hpk₂, if_pos hpk₂]
        · rw [if_neg hpk₂, if_neg hpk₂]
          exact ih

/-- Lookup after writing the same key yields the written value. -/
theorem lookup_setKey_self {α : Type} (l : List (String × α)) (k : String)
    (v : α) : lookup (setKey l k v) k = some v := by
  induction l with
  | nil => simp [setKey, lookup]
  | cons p rest ih =>
      simp only [setKey]
      by_cases hpk : p.1 = k
      · rw [if_pos hpk]
        simp [lookup]
      · rw [if_neg hpk]
        simp only [lookup]
        rw [if_neg hpk]
        exact ih

/-- Values after a write come from the written value or the old values. -/
theorem setKey_values_subset {α : Type} (l : List (String × α)) (k : String)
    (v₀ v : α) (h : v ∈ (setKey l k v₀).map Prod.snd) :
    v = v₀ ∨ v ∈ l.map Prod.snd := by
  induction l with
  | nil =>
      simp only [setKey, List.map_cons, List.map_nil, List.mem_singleton] at h
      exact Or.inl h
  | cons p rest ih =>
      simp only [setKey] at h
      by_cases hpk : p.1 = k
      · rw [if_pos hpk] at h
        simp only [List.map_cons, List.mem_cons] at h
        rcases h with h | h
        · exact Or.inl h
        · exact Or.inr (by
            simp only [List.map_cons, List.mem_cons]
            exact Or.inr h)
      · rw [if_neg hpk] at h
        simp only [List.map_cons, List.mem_cons] at h
        rcases h with h | h
        · exact Or.inr (by
            simp only [List.map_cons, List.mem_cons]
            exact Or.inl h)
        · rcases ih h with h | h
          · exact Or.inl h
          · exact Or.inr (by
              simp only [List.map_cons, List.mem_cons]
              exact Or.inr h)

/-- Absent keys read as `none`. -/
theorem lookup_eq_none_of_not_mem_keys {α : Type} (l : List (String × α))
    (k : String) (hk : k ∉ l.map Prod.fst) : lookup l k = none := by
  induction l with
  | nil => rfl
  | cons p rest ih =>
      simp only [List.map_cons, List.mem_cons, not_or] at hk
      simp only [lookup]
      rw [if_neg (fun h => hk.1 h.symm)]
      exact ih hk.2

/-- The palette-name-or-role-name fallback can never be the null marker:
`PALETTE_MAPPING[p] || p` swallows the null entries of the mapping, which
makes the explicit null check in regenerateSchemeColors unreachable. -/
theorem jsOrStr_ne_null (a : JsStrVal) (b : String) :
    jsOrStr a b ≠ JsStrVal.null := by
  cases a with
  | undef => simp [jsOrStr]
  | null => simp [jsOrStr]
  | str s =>
      simp only [jsOrStr]
      split <;> simp

/-! Concrete inputs for the counterexamples, on the identity engine. The
two colors share lightness and chroma and differ only in hue. -/

/-- Hue-zero example color. -/
def hue0 : Oklch := ⟨1, 2, some 0⟩

/-- Hue-120 example color. -/
def hue120 : Oklch := ⟨1, 2, some 120⟩

/-- Scheme whose only palette `error` is not among the default
affectedPalettes, with an `error` role of a different hue. -/
def errEx : ColorScheme Oklch where
  tonalPalettes := some [("error", [("50", hue120)])]
  schemes := some ⟨some [("error", hue0)], none⟩
  sourceColors := none
  extra := []

/-- Scheme with a palette literally named `scrim` and a `scrim` role. -/
def scrimEx : ColorScheme Oklch where
  tonalPalettes := some [("scrim", [("50", hue120)])]
  schemes := some ⟨some [("scrim", hue0)], none⟩
  sourceColors := none
  extra := []

/-- Scheme carrying a sourceColors field and no schemes. -/
def srcEx : ColorScheme Oklch where
  tonalPalettes := some []
  schemes := none
  sourceColors := some [("primary", hue120)]
  extra := []

/-- C4 counterexample: the `error` role resolves to the `error` palette,
which exists in the input and is not among the default affectedPalettes,
yet back-propagation recolors it (regenerateSchemeColors never consults
affectedPalettes: any role whose palette exists is re-matched and takes
the nearest tone hue of its own uncorrected palette). -/
theorem claim_C4_counterexample :
    (errEx.schemes.bind SchemePair.light).bind (fun L => lookup L "error")
      = some hue0 ∧
    lookup (errEx.tonalPalettes.getD []) "error" = some [("50", hue120)] ∧
    "error" ∉ ProcessOptions.affectedPalettes {} ∧
    ((processColorScheme idEngine errEx {}).bind
      (fun o => (o.schemes.bind SchemePair.light).bind
        (fun L => lookup L "error"))) = some hue120 ∧
    hue120 ≠ hue0 :=
  ⟨rfl, rfl, by decide, rfl, by decide⟩

/-- C5 counterexample: processColorScheme deletes the sourceColors
top-level field from its output, so the output record does not keep all
non-palette top-level fields. -/
theorem claim_C5_counterexample :
    srcEx.sourceColors = some [("primary", hue120)] ∧
    (processColorScheme idEngine srcEx {}).map ColorScheme.sourceColors
      = some none :=
  ⟨rfl, rfl⟩

/-- C7 bug witness: with a tonal palette literally named `scrim`, the
`scrim` role is recolored by back-propagation although PALETTE_MAPPING
marks it null; the null check is dead because the `|| paletteName`
fallback replaces null with the role-derived name first. -/
theorem claim_C7_scrim_recolored :
    (scrimEx.schemes.bind SchemePair.light).bind (fun L => lookup L "scrim")
      = some hue0 ∧
    ((processColorScheme idEngine scrimEx {}).bind
      (fun o => (o.schemes.bind SchemePair.light).bind
        (fun L => lookup L "scrim"))) = some hue120 ∧
    hue120 ≠ hue0 ∧
    (∀ p : String, jsOrStr (PALETTE_MAPPING p) p ≠ JsStrVal.null) :=
  ⟨rfl, rfl, by decide, fun p => jsOrStr_ne_null (PALETTE_MAPPING p) p⟩


/-- Palette key a scheme role resolves to in regenerateSchemeColors:
role name stripped by extractPaletteName, redirected through
PALETTE_MAPPING with the `|| paletteName` fallback, coerced to a key. -/
def roleKey (colorRole : String) : String :=
  (jsOrStr (PALETTE_MAPPING (extractPaletteName colorRole))
    (extractPaletteName colorRole)).key

/-- A role whose resolved palette is absent from the original palettes is
skipped by the per-role step. -/
theorem regenRole_skip_of_no_palette (E : ColorOps κ)
    (originalPalettes processedPalettes : List (String × Palette κ))
    (colorRole : String) (originalHex : κ)
    (hnp : lookup originalPalettes (roleKey colorRole) = none) :
    regenRole E originalPalettes processedPalettes colorRole originalHex
      = some none := by
  simp only [roleKey] at hnp
  simp only [regenRole]
  split
  · rfl
  · split
    · rfl
    · rw [hnp]

/-- The scheme regeneration loop does not change the entry of a role that
every iteration skips. -/
theorem regenSchemeLoop_lookup_of_skip (E : ColorOps κ)
    (o p : List (String × Palette κ)) (r : String)
    (hr : ∀ hex, regenRole E o p r hex = some none) :
    ∀ (l acc out : List (String × κ)),
      regenSchemeLoop E o p l acc = some out →
      lookup out r = lookup acc r := by
  intro l
  induction l with
  | nil =>
      intro acc out h
      simp only [regenSchemeLoop, Option.some.injEq] at h
      rw [← h]
  | cons rv rest ih =>
      intro acc out h
      simp only [regenSchemeLoop] at h
      cases hreg : regenRole E o p rv.1 rv.2 with
      | none => rw [hreg] at h; exact absurd h (by simp)
      | some ov =>
          rw [hreg] at h
          cases ov with
          | none => exact ih acc out h
          | some v =>
              have hnr : rv.1 ≠ r := by
                intro he
                rw [he, hr rv.2] at hreg
                simp at hreg
              rw [ih (setKey acc rv.1 v) out h]
              exact lookup_setKey_ne acc rv.1 r v (fun hh => hnr hh.symm)

/-- Lifting of the skip preservation through regenerateSchemeColors. -/
theorem regenerateSchemeColors_lookup_of_skip (E : ColorOps κ)
    (o p : List (String × Palette κ)) (r : String)
    (hr : ∀ hex, regenRole E o p r hex = some none)
    (sc out₂ : Option (List (String × κ)))
    (h : regenerateSchemeColors E sc o p = some out₂) :
    ∀ L L₂, sc = some L → out₂ = some L₂ → lookup L₂ r = lookup L r := by
  intro L L₂ hL hL₂
  subst hL
  simp only [regenerateSchemeColors] at h
  cases hloop : regenSchemeLoop E o p L L with
  | none => rw [hloop] at h; exact absurd h (by simp)
  | some m =>
      rw [hloop] at h
      replace h : some m = out₂ :=
        Option.some.inj (show some (some m) = some out₂ from h)
      rw [← h] at hL₂
      have hm : m = L₂ := Option.some.inj hL₂
      rw [← hm]
      exact regenSchemeLoop_lookup_of_skip E o p r hr L L m hloop

/-- C4 (amended): a scheme role whose derived palette name resolves to a
palette absent from the input tonalPalettes keeps exactly its original
color value in both output schemes. (The claim as frozen, about palettes
present in the input but outside affectedPalettes, is refuted by
claim_C4_counterexample: regenerateSchemeColors never consults
affectedPalettes, so such roles are recolored from their own uncorrected
palette.) -/
theorem claim_C4_missing_palette_roles_unchanged (E : ColorOps κ)
    (s : ColorScheme κ) (opts : ProcessOptions) (out : ColorScheme κ)
    (pals : List (String × Palette κ)) (r : String)
    (hp : s.tonalPalettes = some pals)
    (hnp : lookup pals (roleKey r) = none)
    (hout : processColorScheme E s opts = some out) :
    (∀ sch sch₂ L L₂, s.schemes = some sch → out.schemes = some sch₂ →
      sch.light = some L → sch₂.light = some L₂ →
      lookup L₂ r = lookup L r) ∧
    (∀ sch sch₂ D D₂, s.schemes = some sch → out.schemes = some sch₂ →
      sch.dark = some D → sch₂.dark = some D₂ →
      lookup D₂ r = lookup D r) := by
  have hr : ∀ hex, regenRole E pals
      (processAffected E (s.sourceColors.getD []) opts.neutralHueFromPrimary
        opts.affectedPalettes pals) r hex = some none :=
    fun hex => regenRole_skip_of_no_palette E pals _ r hex hnp
  cases hpres : opts.preserveHue with
  | false =>
      have hps : processColorScheme E s opts = some s := by
        simp [processColorScheme, hpres]
      rw [hps] at hout
      replace hout : s = out := Option.some.inj hout
      subst hout
      constructor
      · intro sch sch₂ L L₂ hsch hsch₂ hL hL₂
        rw [hsch] at hsch₂
        have : sch = sch₂ := Option.some.inj hsch₂
        rw [← this] at hL₂
        rw [hL] at hL₂
        rw [Option.some.inj hL₂]
      · intro sch sch₂ D D₂ hsch hsch₂ hD hD₂
        rw [hsch] at hsch₂
        have : sch = sch₂ := Option.some.inj hsch₂
        rw [← this] at hD₂
        rw [hD] at hD₂
        rw [Option.some.inj hD₂]
  | true =>
      simp only [processColorScheme, hpres, Bool.not_true, Bool.false_eq_true,
        if_false, hp] at hout
      cases hs : s.schemes with
      | none =>
          constructor
          · intro sch sch₂ L L₂ hsch hsch₂ hL hL₂
            exact absurd hsch (by simp)
          · intro sch sch₂ D D₂ hsch hsch₂ hD hD₂
            exact absurd hsch (by simp)
      | some sch₀ =>
          rw [hs] at hout
          simp only at hout
          cases hlight : regenerateSchemeColors E sch₀.light pals
              (processAffected E (s.sourceColors.getD [])
                opts.neutralHueFromPrimary opts.affectedPalettes pals) with
          | none => rw [hlight] at hout; exact absurd hout (by simp)
          | some l₂ =>
              cases hdark : regenerateSchemeColors E sch₀.dark pals
                  (processAffected E (s.sourceColors.getD [])
                    opts.neutralHueFromPrimary opts.affectedPalettes pals) with
              | none => rw [hlight, hdark] at hout; exact absurd hout (by simp)
              | some d₂ =>
                  rw [hlight, hdark] at hout
                  simp only [Option.some.injEq] at hout
                  constructor
                  · intro sch sch₂ L L₂ hsch hsch₂ hL hL₂
                    have hsch₀ : sch = sch₀ := (Option.some.inj hsch).symm
                    subst hsch₀
                    rw [← hout] at hsch₂
                    have hsch₂e : sch₂ = ⟨l₂, d₂⟩ := (Option.some.inj hsch₂).symm
                    subst hsch₂e
                    simp only at hL₂
                    exact regenerateSchemeColors_lookup_of_skip E pals _ r hr
                      sch.light l₂ hlight L L₂ hL hL₂
                  · intro sch sch₂ D D₂ hsch hsch₂ hD hD₂
                    have hsch₀ : sch = sch₀ := (Option.some.inj hsch).symm
                    subst hsch₀
                    rw [← hout] at hsch₂
                    have hsch₂e : sch₂ = ⟨l₂, d₂⟩ := (Option.some.inj hsch₂).symm
                    subst hsch₂e
                    simp only at hD₂
                    exact regenerateSchemeColors_lookup_of_skip E pals _ r hr
                      sch.dark d₂ hdark D D₂ hD hD₂

/-- Witness for the amended C4 at the concrete errEx input and the role
`primary`, whose palette is absent. -/
theorem claim_C4_missing_palette_roles_unchanged_witness :
    (∀ sch sch₂ L L₂, errEx.schemes = some sch →
      (ColorScheme.mk (some [("error", [("50", hue120)])])
        (some ⟨some [("error", hue120)], none⟩) none []).schemes = some sch₂ →
      sch.light = some L → sch₂.light = some L₂ →
      lookup L₂ "primary" = lookup L "primary") ∧
    (∀ sch sch₂ D D₂, errEx.schemes = some sch →
      (ColorScheme.mk (some [("error", [("50", hue120)])])
        (some ⟨some [("error", hue120)], none⟩) none []).schemes = some sch₂ →
      sch.dark = some D → sch₂.dark = some D₂ →
      lookup D₂ "primary" = lookup D "primary") :=
  claim_C4_missing_palette_roles_unchanged idEngine errEx {}
    (ColorScheme.mk (some [("error", [("50", hue120)])])
      (some ⟨some [("error", hue120)], none⟩) none [])
    [("error", [("50", hue120)])] "primary" rfl rfl rfl


/-- The palette-processing loop preserves the palette name list. -/
theorem processAffected_keys (E : ColorOps κ) (src : List (String × κ))
    (nf : Bool) :
    ∀ (names : List String) (cur : List (String × Palette κ)),
      (processAffected E src nf names cur).map Prod.fst = cur.map Prod.fst := by
  intro names
  induction names with
  | nil => intro cur; rfl
  | cons n rest ih =>
      intro cur
      cases hl : lookup cur n with
      | none => simp only [processAffected, hl]; exact ih cur
      | some pal =>
          simp only [processAffected, hl]
          rw [ih _]
          exact setKey_keys cur n _ (lookup_some_mem_keys cur n pal hl)

/-- Palettes whose name is not in the processing list are left identical. -/
theorem processAffected_lookup_notmem (E : ColorOps κ)
    (src : List (String × κ)) (nf : Bool) :
    ∀ (names : List String) (cur : List (String × Palette κ)) (n : String),
      n ∉ names → lookup (processAffected E src nf names cur) n = lookup cur n := by
  intro names
  induction names with
  | nil => intro cur n _; rfl
  | cons m rest ih =>
      intro cur n hn
      have hnm : n ≠ m := fun h => hn (h ▸ List.mem_cons_self m rest)
      have hnr : n ∉ rest := fun h => hn (List.mem_cons_of_mem m h)
      cases hl : lookup cur m with
      | none => simp only [processAffected, hl]; exact ih cur n hnr
      | some pal =>
          simp only [processAffected, hl]
          rw [ih _ n hnr]
          exact lookup_setKey_ne cur m n _ hnm

/-- C5 (amended): with processing active, the output record keeps the
extra top-level fields, replaces only the palettes named in
affectedPalettes (palettes outside the list are returned identical, and
the palette name list is unchanged), keeps an absent schemes field absent,
and — the one deviation from the claim as frozen, forced by
claim_C5_counterexample — always removes the sourceColors field. -/
theorem claim_C5_shape_passthrough (E : ColorOps κ) (s : ColorScheme κ)
    (opts : ProcessOptions) (out : ColorScheme κ)
    (pals : List (String × Palette κ))
    (hp : s.tonalPalettes = some pals)
    (hpres : opts.preserveHue = true)
    (hout : processColorScheme E s opts = some out) :
    out.extra = s.extra ∧ out.sourceColors = none ∧
    (∃ pals₂, out.tonalPalettes = some pals₂ ∧
      pals₂.map Prod.fst = pals.map Prod.fst ∧
      ∀ n, n ∉ opts.affectedPalettes → lookup pals₂ n = lookup pals n) ∧
    (s.schemes = none → out.schemes = none) := by
  have hkeys := processAffected_keys E (s.sourceColors.getD [])
    opts.neutralHueFromPrimary opts.affectedPalettes pals
  have hlook := fun n hn => processAffected_lookup_notmem E
    (s.sourceColors.getD []) opts.neutralHueFromPrimary
    opts.affectedPalettes pals n hn
  simp only [processColorScheme, hpres, Bool.not_true, Bool.false_eq_true,
    if_false, hp] at hout
  cases hs : s.schemes with
  | none =>
      rw [hs] at hout
      simp only [Option.some.injEq] at hout
      rw [← hout]
      exact ⟨rfl, rfl, ⟨_, rfl, hkeys, hlook⟩, fun _ => rfl⟩
  | some sch₀ =>
      rw [hs] at hout
      simp only at hout
      cases hlight : regenerateSchemeColors E sch₀.light pals
          (processAffected E (s.sourceColors.getD [])
            opts.neutralHueFromPrimary opts.affectedPalettes pals) with
      | none => rw [hlight] at hout; exact absurd hout (by simp)
      | some l₂ =>
          cases hdark : regenerateSchemeColors E sch₀.dark pals
              (processAffected E (s.sourceColors.getD [])
                opts.neutralHueFromPrimary opts.affectedPalettes pals) with
          | none => rw [hlight, hdark] at hout; exact absurd hout (by simp)
          | some d₂ =>
              rw [hlight, hdark] at hout
              simp only [Option.some.injEq] at hout
              rw [← hout]
              refine ⟨rfl, rfl, ⟨_, rfl, hkeys, hlook⟩, fun hcon => ?_⟩
              exact Option.noConfusion hcon

/-- Witness for the amended C5 at the concrete srcEx input. -/
theorem claim_C5_shape_passthrough_witness :
    (ColorScheme.mk (some ([] : List (String × Palette Oklch))) none none
        []).extra = srcEx.extra ∧
    (ColorScheme.mk (some ([] : List (String × Palette Oklch))) none none
        []).sourceColors = none ∧
    (∃ pals₂, (ColorScheme.mk (some ([] : List (String × Palette Oklch)))
        none none []).tonalPalettes = some pals₂ ∧
      pals₂.map Prod.fst = ([] : List (String × Palette Oklch)).map Prod.fst ∧
      ∀ n, n ∉ ProcessOptions.affectedPalettes {} →
        lookup pals₂ n = lookup ([] : List (String × Palette Oklch)) n) ∧
    (srcEx.schemes = none →
      (ColorScheme.mk (some ([] : List (String × Palette Oklch))) none none
        []).schemes = none) :=
  claim_C5_shape_passthrough idEngine srcEx {}
    (ColorScheme.mk (some []) none none []) [] rfl rfl rfl


/-- The per-role step never raises when chroma clamping always returns a
color. -/
theorem regenRole_isSome (E : ColorOps κ)
    (o p : List (String × Palette κ)) (colorRole : String) (originalHex : κ)
    (hcs : ∀ c, (E.clampChroma c).isSome = true) :
    (regenRole E o p colorRole originalHex).isSome = true := by
  simp only [regenRole]
  repeat' split
  all_goals first
    | rfl
    | (rename_i heq
       have h₂ := congrArg Option.isSome heq
       rw [hcs _] at h₂
       simp at h₂)

/-- The scheme regeneration loop never raises when chroma clamping always
returns a color. -/
theorem regenSchemeLoop_isSome (E : ColorOps κ)
    (o p : List (String × Palette κ))
    (hcs : ∀ c, (E.clampChroma c).isSome = true) :
    ∀ (l acc : List (String × κ)),
      (regenSchemeLoop E o p l acc).isSome = true := by
  intro l
  induction l with
  | nil => intro acc; rfl
  | cons rv rest ih =>
      intro acc
      simp only [regenSchemeLoop]
      cases hreg : regenRole E o p rv.1 rv.2 with
      | none =>
          have h₂ := regenRole_isSome E o p rv.1 rv.2 hcs
          rw [hreg] at h₂
          simp at h₂
      | some ov =>
          cases ov with
          | none => exact ih acc
          | some v => exact ih _

/-- regenerateSchemeColors never raises when chroma clamping always
returns a color. -/
theorem regenerateSchemeColors_isSome (E : ColorOps κ)
    (o p : List (String × Palette κ))
    (hcs : ∀ c, (E.clampChroma c).isSome = true)
    (sc : Option (List (String × κ))) :
    (regenerateSchemeColors E sc o p).isSome = true := by
  cases sc with
  | none => rfl
  | some L =>
      simp only [regenerateSchemeColors]
      obtain ⟨m, hm⟩ := Option.isSome_iff_exists.mp
        (regenSchemeLoop_isSome E o p hcs L L)
      rw [hm]
      rfl

/-- C9: processColorScheme is total on every input when the culori chroma
clamp returns a color (its documented behaviour): it returns a result,
passes the input through unchanged when disabled or when tonalPalettes is
missing, keeps the original value of any tone whose color does not
convert, and skips (leaves unchanged) any scheme role whose original color
does not convert. -/
theorem claim_C9_graceful_degradation (E : ColorOps κ) (s : ColorScheme κ)
    (opts : ProcessOptions)
    (hcs : ∀ c, (E.clampChroma c).isSome = true) :
    (processColorScheme E s opts).isSome = true ∧
    (opts.preserveHue = false → processColorScheme E s opts = some s) ∧
    (s.tonalPalettes = none → processColorScheme E s opts = some s) ∧
    (∀ (palette : Palette κ) (paletteName : String) (sourceColor : Option κ)
        (tone : String) (hex : κ),
      (tone, hex) ∈ palette → E.toOklch hex = none →
      (tone, hex) ∈ processPalette E palette paletteName sourceColor) ∧
    (∀ (o p : List (String × Palette κ)) (colorRole : String) (hex : κ),
      E.toOklch hex = none → regenRole E o p colorRole hex = some none) := by
  refine ⟨?_, ?_, ?_, ?_, ?_⟩
  · cases hpres : opts.preserveHue with
    | false => simp [processColorScheme, hpres]
    | true =>
        simp only [processColorScheme, hpres, Bool.not_true,
          Bool.false_eq_true, if_false]
        cases hp : s.tonalPalettes with
        | none => rfl
        | some pals =>
            cases hs : s.schemes with
            | none => rfl
            | some sch =>
                simp only
                obtain ⟨l₂, hl₂⟩ := Option.isSome_iff_exists.mp
                  (regenerateSchemeColors_isSome E pals _ hcs sch.light)
                obtain ⟨d₂, hd₂⟩ := Option.isSome_iff_exists.mp
                  (regenerateSchemeColors_isSome E pals _ hcs sch.dark)
                rw [hl₂, hd₂]
                rfl
  · intro h
    simp [processColorScheme, h]
  · intro h
    cases hpres : opts.preserveHue <;> simp [processColorScheme, hpres, h]
  · intro palette paletteName sourceColor tone hex hmem hnone
    unfold processPalette
    cases hres : resolveRefHue E palette sourceColor with
    | none => exact hmem
    | some ref =>
        have hstep : paletteStep E ref (tone, hex) = (tone, hex) := by
          simp [paletteStep, hnone]
        exact hstep ▸ List.mem_map_of_mem _ hmem
  · intro o p colorRole hex hnone
    simp only [regenRole]
    split
    · rfl
    · split
      · rfl
      · split
        · rw [hnone]
        · rfl

/-- Witness for C9 on the identity engine at the srcEx input. -/
theorem claim_C9_graceful_degradation_witness :
    (processColorScheme idEngine srcEx {}).isSome = true ∧
    (ProcessOptions.preserveHue {} = false →
      processColorScheme idEngine srcEx {} = some srcEx) ∧
    (srcEx.tonalPalettes = none →
      processColorScheme idEngine srcEx {} = some srcEx) ∧
    (∀ (palette : Palette Oklch) (paletteName : String)
        (sourceColor : Option Oklch) (tone : String) (hex : Oklch),
      (tone, hex) ∈ palette → idEngine.toOklch hex = none →
      (tone, hex) ∈ processPalette idEngine palette paletteName sourceColor) ∧
    (∀ (o p : List (String × Palette Oklch)) (colorRole : String)
        (hex : Oklch),
      idEngine.toOklch hex = none →
      regenRole idEngine o p colorRole hex = some none) :=
  claim_C9_graceful_degradation idEngine srcEx {} (fun _ => rfl)


/-- Keys present in the key list have a value. -/
theorem lookup_isSome_of_mem_keys {α : Type} (l : List (String × α))
    (k : String) (hk : k ∈ l.map Prod.fst) : ∃ v, lookup l k = some v := by
  induction l with
  | nil => simp at hk
  | cons p rest ih =>
      have hk₂ : k ∈ p.1 :: List.map Prod.fst rest := by
        simpa only [List.map_cons] using hk
      simp only [lookup]
      by_cases hpk : p.1 = k
      · rw [if_pos hpk]; exact ⟨p.2, rfl⟩
      · rw [if_neg hpk]
        rcases List.mem_cons.mp hk₂ with h | h
        · exact absurd h.symm hpk
        · exact ih h

/-- Per-tone processing keeps the tone key. -/
theorem paletteStep_fst (E : ColorOps κ) (ref : ℚ) (tv : String × κ) :
    (paletteStep E ref tv).1 = tv.1 := by
  cases h : E.toOklch tv.2 <;> simp [paletteStep, h]

/-- processPalette preserves the tone key list. -/
theorem processPalette_keys (E : ColorOps κ) (palette : Palette κ)
    (paletteName : String) (sourceColor : Option κ) :
    (processPalette E palette paletteName sourceColor).map Prod.fst =
      palette.map Prod.fst := by
  unfold processPalette
  cases resolveRefHue E palette sourceColor with
  | none => rfl
  | some ref =>
      rw [List.map_map]
      exact List.map_congr_left (fun tv _ => paletteStep_fst E ref tv)

/-- Palettes reachable after the processing loop have the tone keys of the
palette of the same name before the loop. -/
theorem processAffected_palette_keys (E : ColorOps κ)
    (src : List (String × κ)) (nf : Bool) (pals : List (String × Palette κ)) :
    ∀ (names : List String) (cur : List (String × Palette κ)),
      (∀ n pal, lookup cur n = some pal → ∃ pal₀, lookup pals n = some pal₀ ∧
        pal.map Prod.fst = pal₀.map Prod.fst) →
      ∀ n pal, lookup (processAffected E src nf names cur) n = some pal →
        ∃ pal₀, lookup pals n = some pal₀ ∧
          pal.map Prod.fst = pal₀.map Prod.fst := by
  intro names
  induction names with
  | nil => intro cur hinv; exact hinv
  | cons m rest ih =>
      intro cur hinv
      cases hl : lookup cur m with
      | none => simp only [processAffected, hl]; exact ih cur hinv
      | some pal =>
          simp only [processAffected, hl]
          refine ih _ ?_
          intro n pal₂ hn
          by_cases hnm : n = m
          · subst hnm
            rw [lookup_setKey_self] at hn
            obtain ⟨pal₀, h₁, h₂⟩ := hinv n pal hl
            refine ⟨pal₀, h₁, ?_⟩
            rw [← Option.some.inj hn, processPalette_keys]
            exact h₂
          · rw [lookup_setKey_ne cur m n _ hnm] at hn
            exact hinv n pal₂ hn

/-- The scheme regeneration loop preserves the role name list. -/
theorem regenSchemeLoop_keys (E : ColorOps κ)
    (o p : List (String × Palette κ)) :
    ∀ (l acc out : List (String × κ)),
      (∀ rv ∈ l, rv.1 ∈ acc.map Prod.fst) →
      regenSchemeLoop E o p l acc = some out →
      out.map Prod.fst = acc.map Prod.fst := by
  intro l
  induction l with
  | nil =>
      intro acc out _ h
      rw [← Option.some.inj h]
  | cons rv rest ih =>
      intro acc out hsub h
      simp only [regenSchemeLoop] at h
      cases hreg : regenRole E o p rv.1 rv.2 with
      | none => rw [hreg] at h; exact absurd h (by simp)
      | some ov =>
          rw [hreg] at h
          cases ov with
          | none =>
              exact ih acc out
                (fun q hq => hsub q (List.mem_cons_of_mem _ hq)) h
          | some v =>
              have hk : rv.1 ∈ acc.map Prod.fst :=
                hsub rv (List.mem_cons_self _ _)
              have hkeys := setKey_keys acc rv.1 v hk
              have hout₂ := ih (setKey acc rv.1 v) out
                (fun q hq => by
                  rw [hkeys]
                  exact hsub q (List.mem_cons_of_mem _ hq)) h
              rw [hout₂, hkeys]

/-- Key preservation through regenerateSchemeColors for one optional
scheme object. -/
theorem regenerateSchemeColors_keys (E : ColorOps κ)
    (o p : List (String × Palette κ)) (sc out₂ : Option (List (String × κ)))
    (h : regenerateSchemeColors E sc o p = some out₂) :
    (sc = none → out₂ = none) ∧
    (∀ L, sc = some L → ∃ L₂, out₂ = some L₂ ∧
      L₂.map Prod.fst = L.map Prod.fst) := by
  cases sc with
  | none =>
      have : (none : Option (List (String × κ))) = out₂ :=
        Option.some.inj h
      exact ⟨fun _ => this.symm, fun L hL => absurd hL (by simp)⟩
  | some L =>
      simp only [regenerateSchemeColors] at h
      cases hloop : regenSchemeLoop E o p L L with
      | none => rw [hloop] at h; exact absurd h (by simp)
      | some m =>
          rw [hloop] at h
          replace h : some m = out₂ :=
            Option.some.inj (show some (some m) = some out₂ from h)
          refine ⟨fun hc => absurd hc (by simp), fun L₀ hL₀ => ?_⟩
          have hLL : L = L₀ := Option.some.inj hL₀
          subst hLL
          refine ⟨m, h.symm, ?_⟩
          exact regenSchemeLoop_keys E o p L L m
            (fun rv hrv => List.mem_map_of_mem Prod.fst hrv) hloop

/-- C10: the output of processColorScheme has exactly the input key
structure: the palette name list is unchanged, each output palette has the
tone key list of its input palette, and each output scheme (light and
dark) has the role name list of its input scheme. -/
theorem claim_C10_key_sets_preserved (E : ColorOps κ) (s : ColorScheme κ)
    (opts : ProcessOptions) (out : ColorScheme κ)
    (hout : processColorScheme E s opts = some out) :
    (∀ pals, s.tonalPalettes = some pals →
      ∃ pals₂, out.tonalPalettes = some pals₂ ∧
        pals₂.map Prod.fst = pals.map Prod.fst ∧
        ∀ n pal, lookup pals n = some pal →
          ∃ pal₂, lookup pals₂ n = some pal₂ ∧
            pal₂.map Prod.fst = pal.map Prod.fst) ∧
    (∀ sch, s.schemes = some sch →
      ∃ sch₂, out.schemes = some sch₂ ∧
        (sch.light = none → sch₂.light = none) ∧
        (sch.dark = none → sch₂.dark = none) ∧
        (∀ L, sch.light = some L → ∃ L₂, sch₂.light = some L₂ ∧
          L₂.map Prod.fst = L.map Prod.fst) ∧
        (∀ D, sch.dark = some D → ∃ D₂, sch₂.dark = some D₂ ∧
          D₂.map Prod.fst = D.map Prod.fst)) := by
  have hid : ∀ (t : ColorScheme κ), t = out →
      (∀ pals, t.tonalPalettes = some pals →
        ∃ pals₂, out.tonalPalettes = some pals₂ ∧
          pals₂.map Prod.fst = pals.map Prod.fst ∧
          ∀ n pal, lookup pals n = some pal →
            ∃ pal₂, lookup pals₂ n = some pal₂ ∧
              pal₂.map Prod.fst = pal.map Prod.fst) ∧
      (∀ sch, t.schemes = some sch →
        ∃ sch₂, out.schemes = some sch₂ ∧
          (sch.light = none → sch₂.light = none) ∧
          (sch.dark = none → sch₂.dark = none) ∧
          (∀ L, sch.light = some L → ∃ L₂, sch₂.light = some L₂ ∧
            L₂.map Prod.fst = L.map Prod.fst) ∧
          (∀ D, sch.dark = some D → ∃ D₂, sch₂.dark = some D₂ ∧
            D₂.map Prod.fst = D.map Prod.fst)) := by
    intro t ht
    subst ht
    constructor
    · intro pals hpals
      exact ⟨pals, hpals, rfl, fun n pal hn => ⟨pal, hn, rfl⟩⟩
    · intro sch hsch
      exact ⟨sch, hsch, fun h => h, fun h => h,
        fun L hL => ⟨L, hL, rfl⟩, fun D hD => ⟨D, hD, rfl⟩⟩
  cases hpres : opts.preserveHue with
  | false =>
      have hps : processColorScheme E s opts = some s := by
        simp [processColorScheme, hpres]
      rw [hps] at hout
      exact hid s (Option.some.inj hout)
  | true =>
      simp only [processColorScheme, hpres, Bool.not_true,
        Bool.false_eq_true, if_false] at hout
      cases hp : s.tonalPalettes with
      | none =>
          rw [hp] at hout
          replace hout := hid s (Option.some.inj hout)
          constructor
          · intro pals hpals
            exact absurd hpals (by simp)
          · exact hout.2
      | some pals₀ =>
          rw [hp] at hout
          have hpkeys := processAffected_keys E (s.sourceColors.getD [])
            opts.neutralHueFromPrimary opts.affectedPalettes pals₀
          have hppal := processAffected_palette_keys E
            (s.sourceColors.getD []) opts.neutralHueFromPrimary pals₀
            opts.affectedPalettes pals₀
            (fun n pal hn => ⟨pal, hn, rfl⟩)
          have hpal : ∀ pals, some pals₀ = some pals →
              ∃ pals₂, some (processAffected E (s.sourceColors.getD [])
                  opts.neutralHueFromPrimary opts.affectedPalettes pals₀)
                = some pals₂ ∧
                pals₂.map Prod.fst = pals.map Prod.fst ∧
                ∀ n pal, lookup pals n = some pal →
                  ∃ pal₂, lookup pals₂ n = some pal₂ ∧
                    pal₂.map Prod.fst = pal.map Prod.fst := by
            intro pals hpals
            have he : pals₀ = pals := Option.some.inj hpals
            subst he
            refine ⟨_, rfl, hpkeys, ?_⟩
            intro n pal hn
            have hmem : n ∈ (processAffected E (s.sourceColors.getD [])
                opts.neutralHueFromPrimary opts.affectedPalettes
                pals₀).map Prod.fst := by
              rw [hpkeys]
              exact lookup_some_mem_keys pals₀ n pal hn
            obtain ⟨pal₂, hpal₂⟩ := lookup_isSome_of_mem_keys _ n hmem
            obtain ⟨pal₀, h₁, h₂⟩ := hppal n pal₂ hpal₂
            rw [hn] at h₁
            refine ⟨pal₂, hpal₂, ?_⟩
            rw [h₂, Option.some.inj h₁]
          cases hs : s.schemes with
          | none =>
              rw [hs] at hout
              replace hout := Option.some.inj hout
              constructor
              · intro pals hpals
                rw [← hout]
                exact hpal pals hpals
              · intro sch hsch
                exact absurd hsch (by simp)
          | some sch₀ =>
              rw [hs] at hout
              simp only at hout
              cases hlight : regenerateSchemeColors E sch₀.light pals₀
                  (processAffected E (s.sourceColors.getD [])
                    opts.neutralHueFromPrimary opts.affectedPalettes
                    pals₀) with
              | none => rw [hlight] at hout; exact absurd hout (by simp)
              | some l₂ =>
                  cases hdark : regenerateSchemeColors E sch₀.dark pals₀
                      (processAffected E (s.sourceColors.getD [])
                        opts.neutralHueFromPrimary opts.affectedPalettes
                        pals₀) with
                  | none =>
                      rw [hlight, hdark] at hout
                      exact absurd hout (by simp)
                  | some d₂ =>
                      rw [hlight, hdark] at hout
                      replace hout := Option.some.inj hout
                      constructor
                      · intro pals hpals
                        rw [← hout]
                        exact hpal pals hpals
                      · intro sch hsch
                        have hse : sch₀ = sch := Option.some.inj hsch
                        subst hse
                        obtain ⟨hln, hlk⟩ := regenerateSchemeColors_keys E
                          pals₀ _ sch₀.light l₂ hlight
                        obtain ⟨hdn, hdk⟩ := regenerateSchemeColors_keys E
                          pals₀ _ sch₀.dark d₂ hdark
                        refine ⟨⟨l₂, d₂⟩, by rw [← hout], ?_, ?_, ?_, ?_⟩
                        · exact hln
                        · exact hdn
                        · exact hlk
                        · exact hdk

/-- Witness for C10 on the identity engine at the errEx input. -/
theorem claim_C10_key_sets_preserved_witness :
    (∀ pals, errEx.tonalPalettes = some pals →
      ∃ pals₂, (ColorScheme.mk (some [("error", [("50", hue120)])])
          (some ⟨some [("error", hue120)], none⟩) none
          []).tonalPalettes = some pals₂ ∧
        pals₂.map Prod.fst = pals.map Prod.fst ∧
        ∀ n pal, lookup pals n = some pal →
          ∃ pal₂, lookup pals₂ n = some pal₂ ∧
            pal₂.map Prod.fst = pal.map Prod.fst) ∧
    (∀ sch, errEx.schemes = some sch →
      ∃ sch₂, (ColorScheme.mk (some [("error", [("50", hue120)])])
          (some ⟨some [("error", hue120)], none⟩) none
          []).schemes = some sch₂ ∧
        (sch.light = none → sch₂.light = none) ∧
        (sch.dark = none → sch₂.dark = none) ∧
        (∀ L, sch.light = some L → ∃ L₂, sch₂.light = some L₂ ∧
          L₂.map Prod.fst = L.map Prod.fst) ∧
        (∀ D, sch.dark = some D → ∃ D₂, sch₂.dark = some D₂ ∧
          D₂.map Prod.fst = D.map Prod.fst)) :=
  claim_C10_key_sets_preserved idEngine errEx {}
    (ColorScheme.mk (some [("error", [("50", hue120)])])
      (some ⟨some [("error", hue120)], none⟩) none []) rfl


/-- Characterisation of the closest-tone fold: the final (tone, diff) pair
either originates from a convertible entry of the scanned palette with
diff its lightness difference, or is the incoming best; diff is bounded by
the incoming best and by the lightness difference of every convertible
entry. -/
theorem closestToneAux_spec (E : ColorOps κ) (lightness : ℚ) :
    ∀ (pal : Palette κ) (best : Option (String × ℚ)) (t : String) (d : ℚ),
      closestToneAux E lightness pal best = some (t, d) →
      ((∃ hex o, (t, hex) ∈ pal ∧ E.toOklch hex = some o ∧
          d = |o.l - lightness|) ∨ best = some (t, d)) ∧
      (∀ b ∈ best, d ≤ b.2) ∧
      (∀ tone hex o, (tone, hex) ∈ pal → E.toOklch hex = some o →
        d ≤ |o.l - lightness|) := by
  intro pal
  induction pal with
  | nil =>
      intro best t d h
      replace h : best = some (t, d) := h
      refine ⟨Or.inr h, ?_, ?_⟩
      · intro b hb
        have hb₂ : some (t, d) = some b := h ▸ hb
        rw [← Option.some.inj hb₂]
      · intro tone hex o hmem
        exact absurd hmem (List.not_mem_nil _)
  | cons th rest ih =>
      intro best t d h
      simp only [closestToneAux] at h
      cases hok : E.toOklch th.2 with
      | none =>
          rw [hok] at h
          obtain ⟨ho, hb, hmin⟩ := ih best t d h
          refine ⟨?_, hb, ?_⟩
          · rcases ho with ⟨hex, o, hmem, hconv, hd⟩ | ho
            · exact Or.inl ⟨hex, o, List.mem_cons_of_mem _ hmem, hconv, hd⟩
            · exact Or.inr ho
          · intro tone hex o hmem hconv
            rcases List.mem_cons.mp hmem with hmem | hmem
            · have hth : th.2 = hex := congrArg Prod.snd hmem.symm
              rw [hth] at hok
              rw [hok] at hconv
              exact absurd hconv (by simp)
            · exact hmin tone hex o hmem hconv
      | some o₀ =>
          rw [hok] at h
          cases best with
          | none =>
              obtain ⟨ho, hb, hmin⟩ := ih (some (th.1, |o₀.l - lightness|)) t d h
              have hdb : d ≤ |o₀.l - lightness| := hb _ rfl
              refine ⟨?_, ?_, ?_⟩
              · rcases ho with ⟨hex, o, hmem, hconv, hd⟩ | ho
                · exact Or.inl ⟨hex, o, List.mem_cons_of_mem _ hmem, hconv, hd⟩
                · have hpair := Option.some.inj ho
                  have ht : th.1 = t := congrArg Prod.fst hpair
                  have hd : |o₀.l - lightness| = d := congrArg Prod.snd hpair
                  refine Or.inl ⟨th.2, o₀, ?_, hok, hd.symm⟩
                  rw [← ht]
                  exact List.mem_cons_self _ _
              · intro b hb₂
                exact absurd hb₂ (by simp)
              · intro tone hex o hmem hconv
                rcases List.mem_cons.mp hmem with hmem | hmem
                · have h₁ : th.1 = tone := congrArg Prod.fst hmem.symm
                  have h₂ : th.2 = hex := congrArg Prod.snd hmem.symm
                  rw [h₂] at hok
                  rw [hok] at hconv
                  rw [← Option.some.inj hconv]
                  exact hdb
                · exact hmin tone hex o hmem hconv
          | some b₀ =>
              replace h : (if |o₀.l - lightness| < b₀.2 then
                  closestToneAux E lightness rest
                    (some (th.1, |o₀.l - lightness|))
                else closestToneAux E lightness rest (some b₀))
                  = some (t, d) := h
              by_cases hlt : |o₀.l - lightness| < b₀.2
              · rw [if_pos hlt] at h
                obtain ⟨ho, hb, hmin⟩ := ih (some (th.1, |o₀.l - lightness|)) t d h
                have hdb : d ≤ |o₀.l - lightness| := hb _ rfl
                refine ⟨?_, ?_, ?_⟩
                · rcases ho with ⟨hex, o, hmem, hconv, hd⟩ | ho
                  · exact Or.inl ⟨hex, o, List.mem_cons_of_mem _ hmem, hconv, hd⟩
                  · have hpair := Option.some.inj ho
                    have ht : th.1 = t := congrArg Prod.fst hpair
                    have hd : |o₀.l - lightness| = d := congrArg Prod.snd hpair
                    refine Or.inl ⟨th.2, o₀, ?_, hok, hd.symm⟩
                    rw [← ht]
                    exact List.mem_cons_self _ _
                · intro b hb₂
                  rw [Option.mem_def, Option.some.injEq] at hb₂
                  rw [← hb₂]
                  exact le_trans hdb (le_of_lt hlt)
                · intro tone hex o hmem hconv
                  rcases List.mem_cons.mp hmem with hmem | hmem
                  · have h₂ : th.2 = hex := congrArg Prod.snd hmem.symm
                    rw [h₂] at hok
                    rw [hok] at hconv
                    rw [← Option.some.inj hconv]
                    exact hdb
                  · exact hmin tone hex o hmem hconv
              · rw [if_neg hlt] at h
                obtain ⟨ho, hb, hmin⟩ := ih (some b₀) t d h
                have hdb : d ≤ b₀.2 := hb _ rfl
                refine ⟨?_, ?_, ?_⟩
                · rcases ho with ⟨hex, o, hmem, hconv, hd⟩ | ho
                  · exact Or.inl ⟨hex, o, List.mem_cons_of_mem _ hmem, hconv, hd⟩
                  · exact Or.inr ho
                · intro b hb₂
                  rw [Option.mem_def, Option.some.injEq] at hb₂
                  rw [← hb₂]
                  exact hdb
                · intro tone hex o hmem hconv
                  rcases List.mem_cons.mp hmem with hmem | hmem
                  · have h₂ : th.2 = hex := congrArg Prod.snd hmem.symm
                    rw [h₂] at hok
                    rw [hok] at hconv
                    rw [← Option.some.inj hconv]
                    exact le_trans hdb (not_lt.mp hlt)
                  · exact hmin tone hex o hmem hconv

/-- C3: for a role that is not skipped, back-propagation matches the role
against the ORIGINAL palette by nearest OKLCH lightness (the matched tone
has a convertible entry whose lightness difference is minimal over all
convertible entries), and recolors the role keeping the role original
lightness and chroma while adopting only the corrected hue of the
processed palette color at the matched tone, clamping chroma back into
gamut when needed (assuming the culori clamp preserves lightness and hue
and returns a color). -/
theorem claim_C3_back_propagation (E : ColorOps κ)
    (originalPalettes processedPalettes : List (String × Palette κ))
    (colorRole : String) (originalHex : κ)
    (originalPal processedPal : Palette κ) (oOk : Oklch) (t : String)
    (processedHex : κ) (pOk : Oklch)
    (hnf : jsIncludes (jsToLower colorRole) "fixed" = false)
    (horig : lookup originalPalettes (roleKey colorRole) = some originalPal)
    (hproc : lookup processedPalettes (roleKey colorRole) = some processedPal)
    (hco : E.toOklch originalHex = some oOk)
    (hct : closestTone E originalPal oOk.l = some t)
    (hpv : lookup processedPal t = some processedHex)
    (htr : E.truthy processedHex = true)
    (hpc : E.toOklch processedHex = some pOk)
    (hcl : ∀ c c₂, E.clampChroma c = some c₂ → c₂.h = c.h ∧ c₂.l = c.l)
    (hcs : ∀ c, (E.clampChroma c).isSome = true) :
    (∃ hex o, (t, hex) ∈ originalPal ∧ E.toOklch hex = some o ∧
      ∀ tone hex₂ o₂, (tone, hex₂) ∈ originalPal →
        E.toOklch hex₂ = some o₂ → |o.l - oOk.l| ≤ |o₂.l - oOk.l|) ∧
    (∃ fc, regenRole E originalPalettes processedPalettes colorRole
        originalHex = some (some (E.formatHex fc)) ∧
      fc.h = pOk.h ∧ fc.l = oOk.l ∧
      (E.inGamut ⟨oOk.l, oOk.c, pOk.h⟩ = true →
        fc = ⟨oOk.l, oOk.c, pOk.h⟩) ∧
      (E.inGamut ⟨oOk.l, oOk.c, pOk.h⟩ = false →
        E.clampChroma ⟨oOk.l, oOk.c, pOk.h⟩ = some fc)) := by
  constructor
  · simp only [closestTone] at hct
    cases haux : closestToneAux E oOk.l originalPal none with
    | none => rw [haux] at hct; exact absurd hct (by simp)
    | some td =>
        rw [haux] at hct
        have ht : td.1 = t := Option.some.inj hct
        obtain ⟨ho, _, hmin⟩ := closestToneAux_spec E oOk.l originalPal none
          td.1 td.2 (by rw [← haux])
        rcases ho with ⟨hex, o, hmem, hconv, hd⟩ | ho
        · refine ⟨hex, o, ht ▸ hmem, hconv, ?_⟩
          intro tone hex₂ o₂ hmem₂ hconv₂
          rw [← hd]
          exact hmin tone hex₂ o₂ hmem₂ hconv₂
        · exact absurd ho (by simp)
  · simp only [roleKey] at horig hproc
    simp only [regenRole, hnf, Bool.false_eq_true, if_false,
      if_neg (jsOrStr_ne_null (PALETTE_MAPPING (extractPaletteName colorRole))
        (extractPaletteName colorRole)),
      horig, hproc, hco, hct, hpv, htr, hpc, if_true]
    cases hg : E.inGamut ⟨oOk.l, oOk.c, pOk.h⟩ with
    | true =>
        exact ⟨⟨oOk.l, oOk.c, pOk.h⟩, by simp, rfl, rfl, fun _ => rfl,
          fun hc => absurd hc (by simp)⟩
    | false =>
        obtain ⟨c₂, hc₂⟩ := Option.isSome_iff_exists.mp
          (hcs ⟨oOk.l, oOk.c, pOk.h⟩)
        obtain ⟨hh, hl⟩ := hcl _ _ hc₂
        rw [hc₂]
        exact ⟨c₂, by simp, hh, hl, fun hc => absurd hc (by simp),
          fun _ => rfl⟩

/-- Witness for C3 on the identity engine at a singleton palette. -/
theorem claim_C3_back_propagation_witness :
    (∃ hex o, ("50", hex) ∈ [("50", hue120)] ∧
      idEngine.toOklch hex = some o ∧
      ∀ tone hex₂ o₂, (tone, hex₂) ∈ [("50", hue120)] →
        idEngine.toOklch hex₂ = some o₂ →
        |o.l - hue0.l| ≤ |o₂.l - hue0.l|) ∧
    (∃ fc, regenRole idEngine [("error", [("50", hue120)])]
        [("error", [("50", hue120)])] "error" hue0
        = some (some (idEngine.formatHex fc)) ∧
      fc.h = hue120.h ∧ fc.l = hue0.l ∧
      (idEngine.inGamut ⟨hue0.l, hue0.c, hue120.h⟩ = true →
        fc = ⟨hue0.l, hue0.c, hue120.h⟩) ∧
      (idEngine.inGamut ⟨hue0.l, hue0.c, hue120.h⟩ = false →
        idEngine.clampChroma ⟨hue0.l, hue0.c, hue120.h⟩ = some fc)) :=
  claim_C3_back_propagation idEngine [("error", [("50", hue120)])]
    [("error", [("50", hue120)])] "error" hue0 [("50", hue120)]
    [("50", hue120)] hue0 "50" hue120 hue120 rfl rfl rfl rfl rfl rfl rfl rfl
    (fun c c₂ hc => by rw [← Option.some.inj hc]; exact ⟨rfl, rfl⟩)
    (fun _ => rfl)


/-- Colors of all palettes of a palette record. -/
def palsValues : List (String × Palette κ) → List κ
  | [] => []
  | (_, pal) :: rest => pal.map Prod.snd ++ palsValues rest

/-- Colors of one optional scheme object. -/
def schemeValues : Option (List (String × κ)) → List κ
  | none => []
  | some L => L.map Prod.snd

/-- Every color value of a record: palette tones, scheme roles and source
colors. -/
def allColorValues (s : ColorScheme κ) : List κ :=
  palsValues (s.tonalPalettes.getD []) ++
    (match s.schemes with
      | none => []
      | some sch => schemeValues sch.light ++ schemeValues sch.dark) ++
    (s.sourceColors.getD []).map Prod.snd

/-- The search loop keeps its best color in gamut: accepted candidates are
gamut-tested and clamped candidates are in gamut by the clamp contract. -/
theorem findBestLoop_inGamut (E : ColorOps κ) (orig : Oklch) (ref : ℚ)
    (hclg : ∀ c c₂, E.clampChroma c = some c₂ → E.inGamut c₂ = true) :
    ∀ (l : List (Nat × Int)) (best : Oklch) (bestDev : ℚ),
      E.inGamut best = true →
      E.inGamut (findBestLoop E orig ref l best bestDev).1 = true := by
  intro l
  induction l with
  | nil => intro best bestDev hb; exact hb
  | cons p rest ih =>
      intro best bestDev hb
      obtain ⟨d, s⟩ := p
      simp only [findBestLoop]
      split
      · rename_i hg
        simpa using hg
      · split
        · rename_i clamped heq
          split
          · exact ih clamped _ (hclg _ _ heq)
          · exact ih best bestDev hb
        · exact ih best bestDev hb

/-- findBestGamutColor returns an in-gamut color whenever the original
color is in gamut and clamping lands in gamut. -/
theorem findBestGamutColor_inGamut (E : ColorOps κ) (col : Oklch) (ref : ℚ)
    (m : Nat) (hog : E.inGamut col = true)
    (hclg : ∀ c c₂, E.clampChroma c = some c₂ → E.inGamut c₂ = true) :
    E.inGamut (findBestGamutColor E col ref m).1 = true := by
  simp only [findBestGamutColor]
  split
  · rename_i hg
    simpa using hg
  · refine findBestLoop_inGamut E col ref hclg _ _ _ ?_
    cases hc : E.clampChroma ⟨col.l, col.c, some ref⟩ with
    | none => exact hog
    | some cl => exact hclg _ _ hc

/-- Every value of a processed palette is an input value or the formatted
form of an in-gamut color. -/
theorem processPalette_values (E : ColorOps κ) (V : κ → Prop)
    (palette : Palette κ) (paletteName : String) (sourceColor : Option κ)
    (htg : ∀ k c, E.toOklch k = some c → E.inGamut c = true)
    (hclg : ∀ c c₂, E.clampChroma c = some c₂ → E.inGamut c₂ = true)
    (hfmt : ∀ c, E.inGamut c = true → V (E.formatHex c)) :
    ∀ v ∈ (processPalette E palette paletteName sourceColor).map Prod.snd,
      v ∈ palette.map Prod.snd ∨ V v := by
  intro v hv
  cases hres : resolveRefHue E palette sourceColor with
  | none =>
      simp only [processPalette, hres] at hv
      exact Or.inl hv
  | some ref =>
      simp only [processPalette, hres] at hv
      rw [List.map_map] at hv
      obtain ⟨tv, htv, hveq⟩ := List.mem_map.mp hv
      cases hok : E.toOklch tv.2 with
      | none =>
          rw [← hveq]
          refine Or.inl ?_
          have hstep : (Prod.snd ∘ paletteStep E ref) tv = tv.2 := by
            simp [paletteStep, hok]
          rw [hstep]
          exact List.mem_map_of_mem Prod.snd htv
      | some col =>
          refine Or.inr ?_
          rw [← hveq]
          have hstep : (Prod.snd ∘ paletteStep E ref) tv =
              E.formatHex
                (findBestGamutColor E col ref (maxHueDeviation tv.1)).1 := by
            simp [paletteStep, hok]
          rw [hstep]
          exact hfmt _ (findBestGamutColor_inGamut E col ref _
            (htg _ _ hok) hclg)

/-- A palette found by lookup contributes its values to the record. -/
theorem lookup_palette_values_sub (pals : List (String × Palette κ))
    (n : String) (pal : Palette κ) (hl : lookup pals n = some pal) :
    ∀ v ∈ pal.map Prod.snd, v ∈ palsValues pals := by
  induction pals with
  | nil => simp [lookup] at hl
  | cons p rest ih =>
      intro v hv
      simp only [lookup] at hl
      simp only [palsValues, List.mem_append]
      by_cases hpk : p.1 = n
      · rw [if_pos hpk] at hl
        left
        rw [Option.some.inj hl]
        exact hv
      · rw [if_neg hpk] at hl
        right
        exact ih hl v hv

/-- Values after replacing one palette come from the new palette or the
old record. -/
theorem palsValues_setKey_sub (cur : List (String × Palette κ)) (n : String)
    (newPal : Palette κ) :
    ∀ v ∈ palsValues (setKey cur n newPal),
      v ∈ newPal.map Prod.snd ∨ v ∈ palsValues cur := by
  induction cur with
  | nil =>
      intro v hv
      simp only [setKey, palsValues, List.append_nil] at hv
      exact Or.inl hv
  | cons p rest ih =>
      intro v hv
      simp only [setKey] at hv
      by_cases hpk : p.1 = n
      · rw [if_pos hpk] at hv
        simp only [palsValues, List.mem_append] at hv
        rcases hv with hv | hv
        · exact Or.inl hv
        · exact Or.inr (by
            simp only [palsValues, List.mem_append]
            exact Or.inr hv)
      · rw [if_neg hpk] at hv
        simp only [palsValues, List.mem_append] at hv
        rcases hv with hv | hv
        · exact Or.inr (by
            simp only [palsValues, List.mem_append]
            exact Or.inl hv)
        · rcases ih v hv with h | h
          · exact Or.inl h
          · exact Or.inr (by
              simp only [palsValues, List.mem_append]
              exact Or.inr h)

/-- Values after the palette-processing loop come from the original record
or from in-gamut formatted colors. -/
theorem processAffected_values (E : ColorOps κ) (V : κ → Prop)
    (src : List (String × κ)) (nf : Bool)
    (pals : List (String × Palette κ))
    (htg : ∀ k c, E.toOklch k = some c → E.inGamut c = true)
    (hclg : ∀ c c₂, E.clampChroma c = some c₂ → E.inGamut c₂ = true)
    (hfmt : ∀ c, E.inGamut c = true → V (E.formatHex c)) :
    ∀ (names : List String) (cur : List (String × Palette κ)),
      (∀ v ∈ palsValues cur, v ∈ palsValues pals ∨ V v) →
      ∀ v ∈ palsValues (processAffected E src nf names cur),
        v ∈ palsValues pals ∨ V v := by
  intro names
  induction names with
  | nil => intro cur hinv; exact hinv
  | cons m rest ih =>
      intro cur hinv
      cases hl : lookup cur m with
      | none => simp only [processAffected, hl]; exact ih cur hinv
      | some pal =>
          simp only [processAffected, hl]
          refine ih _ ?_
          intro v hv
          rcases palsValues_setKey_sub cur m _ v hv with hv₂ | hv₂
          · rcases processPalette_values E V pal m _ htg hclg hfmt v hv₂
              with h | h
            · exact hinv v (lookup_palette_values_sub cur m pal hl v h)
            · exact Or.inr h
          · exact hinv v hv₂

/-- A value written by the per-role step is a processed palette value or
the formatted form of an in-gamut color. -/
theorem regenRole_values (E : ColorOps κ) (V : κ → Prop)
    (o p : List (String × Palette κ)) (colorRole : String)
    (originalHex v : κ)
    (hclg : ∀ c c₂, E.clampChroma c = some c₂ → E.inGamut c₂ = true)
    (hfmt : ∀ c, E.inGamut c = true → V (E.formatHex c))
    (hres : regenRole E o p colorRole originalHex = some (some v)) :
    v ∈ palsValues p ∨ V v := by
  cases hnf : jsIncludes (jsToLower colorRole) "fixed" with
  | true =>
      simp only [regenRole, hnf, if_true] at hres
      exact absurd (Option.some.inj hres) (by simp)
  | false =>
      cases ho : lookup o ((jsOrStr (PALETTE_MAPPING
          (extractPaletteName colorRole))
          (extractPaletteName colorRole)).key) with
      | none =>
          simp only [regenRole, hnf, Bool.false_eq_true, if_false,
            if_neg (jsOrStr_ne_null _ _), ho] at hres
          exact absurd (Option.some.inj hres) (by simp)
      | some originalPal =>
          cases hp₂ : lookup p ((jsOrStr (PALETTE_MAPPING
              (extractPaletteName colorRole))
              (extractPaletteName colorRole)).key) with
          | none =>
              simp only [regenRole, hnf, Bool.false_eq_true, if_false,
                if_neg (jsOrStr_ne_null _ _), ho, hp₂] at hres
              exact absurd (Option.some.inj hres) (by simp)
          | some processedPal =>
              cases hoc : E.toOklch originalHex with
              | none =>
                  simp only [regenRole, hnf, Bool.false_eq_true, if_false,
                    if_neg (jsOrStr_ne_null _ _), ho, hp₂, hoc] at hres
                  exact absurd (Option.some.inj hres) (by simp)
              | some oOk =>
                  cases hct : closestTone E originalPal oOk.l with
                  | none =>
                      simp only [regenRole, hnf, Bool.false_eq_true,
                        if_false, if_neg (jsOrStr_ne_null _ _), ho, hp₂,
                        hoc, hct] at hres
                      exact absurd (Option.some.inj hres) (by simp)
                  | some tone =>
                      cases hpv : lookup processedPal tone with
                      | none =>
                          simp only [regenRole, hnf, Bool.false_eq_true,
                            if_false, if_neg (jsOrStr_ne_null _ _), ho, hp₂,
                            hoc, hct, hpv] at hres
                          exact absurd (Option.some.inj hres) (by simp)
                      | some ph =>
                          cases htr : E.truthy ph with
                          | false =>
                              simp only [regenRole, hnf, Bool.false_eq_true,
                                if_false, if_neg (jsOrStr_ne_null _ _), ho,
                                hp₂, hoc, hct, hpv, htr,
                                Bool.false_eq_true] at hres
                              exact absurd (Option.some.inj hres) (by simp)
                          | true =>
                              have hmem : ph ∈ palsValues p :=
                                lookup_palette_values_sub p _ processedPal
                                  hp₂ ph
                                  (lookup_mem_values processedPal tone ph hpv)
                              cases hpc : E.toOklch ph with
                              | none =>
                                  simp only [regenRole, hnf,
                                    Bool.false_eq_true, if_false,
                                    if_neg (jsOrStr_ne_null _ _), ho, hp₂,
                                    hoc, hct, hpv, htr, hpc,
                                    if_true] at hres
                                  rw [← Option.some.inj
                                    (Option.some.inj hres)]
                                  exact Or.inl hmem
                              | some pOk =>
                                  simp only [regenRole, hnf,
                                    Bool.false_eq_true, if_false,
                                    if_neg (jsOrStr_ne_null _ _), ho, hp₂,
                                    hoc, hct, hpv, htr, hpc,
                                    if_true] at hres
                                  cases hg : E.inGamut
                                      ⟨oOk.l, oOk.c, pOk.h⟩ with
                                  | true =>
                                      rw [hg, if_pos rfl] at hres
                                      rw [← Option.some.inj
                                        (Option.some.inj hres)]
                                      exact Or.inr (hfmt _ hg)
                                  | false =>
                                      rw [hg, if_neg (by simp)] at hres
                                      cases hcc : E.clampChroma
                                          ⟨oOk.l, oOk.c, pOk.h⟩ with
                                      | none =>
                                          rw [hcc] at hres
                                          exact absurd hres (by simp)
                                      | some cl =>
                                          rw [hcc] at hres
                                          rw [← Option.some.inj
                                            (Option.some.inj hres)]
                                          exact Or.inr
                                            (hfmt _ (hclg _ _ hcc))

/-- Values of the regenerated scheme satisfy the target predicate when the
incoming scheme values and the processed palette values do. -/
theorem regenSchemeLoop_values (E : ColorOps κ) (V : κ → Prop)
    (o p : List (String × Palette κ))
    (hclg : ∀ c c₂, E.clampChroma c = some c₂ → E.inGamut c₂ = true)
    (hfmt : ∀ c, E.inGamut c = true → V (E.formatHex c))
    (hP : ∀ v ∈ palsValues p, V v) :
    ∀ (l acc out : List (String × κ)),
      (∀ v ∈ acc.map Prod.snd, V v) →
      regenSchemeLoop E o p l acc = some out →
      ∀ v ∈ out.map Prod.snd, V v := by
  intro l
  induction l with
  | nil =>
      intro acc out hacc h
      rw [← Option.some.inj h]
      exact hacc
  | cons rv rest ih =>
      intro acc out hacc h
      simp only [regenSchemeLoop] at h
      cases hreg : regenRole E o p rv.1 rv.2 with
      | none => rw [hreg] at h; exact absurd h (by simp)
      | some ov =>
          rw [hreg] at h
          cases ov with
          | none => exact ih acc out hacc h
          | some v₀ =>
              refine ih _ out ?_ h
              intro v hv
              rcases setKey_values_subset acc rv.1 v₀ v hv with hv₂ | hv₂
              · rcases regenRole_values E V o p rv.1 rv.2 v₀ hclg hfmt hreg
                  with h₂ | h₂
                · exact hv₂ ▸ hP v₀ h₂
                · exact hv₂ ▸ h₂
              · exact hacc v hv₂

/-- Lifting of the value tracking through regenerateSchemeColors. -/
theorem regenerateSchemeColors_values (E : ColorOps κ) (V : κ → Prop)
    (o p : List (String × Palette κ))
    (hclg : ∀ c c₂, E.clampChroma c = some c₂ → E.inGamut c₂ = true)
    (hfmt : ∀ c, E.inGamut c = true → V (E.formatHex c))
    (hP : ∀ v ∈ palsValues p, V v)
    (sc out₂ : Option (List (String × κ)))
    (h : regenerateSchemeColors E sc o p = some out₂)
    (hsc : ∀ v ∈ schemeValues sc, V v) :
    ∀ v ∈ schemeValues out₂, V v := by
  cases sc with
  | none =>
      replace h : some (none : Option (List (String × κ))) = some out₂ := h
      rw [← Option.some.inj h]
      intro v hv
      simp [schemeValues] at hv
  | some L =>
      simp only [regenerateSchemeColors] at h
      cases hloop : regenSchemeLoop E o p L L with
      | none => rw [hloop] at h; exact absurd h (by simp)
      | some m =>
          rw [hloop] at h
          replace h : some (some m) = some out₂ :=
            show some (some m) = some out₂ from h
          rw [← Option.some.inj h]
          intro v hv
          simp only [schemeValues] at hv
          refine regenSchemeLoop_values E V o p hclg hfmt hP L L m ?_ hloop v hv
          intro v₂ hv₂
          refine hsc v₂ ?_
          simpa [schemeValues] using hv₂

/-- C2: every color value in the output of processColorScheme (every tone
of every tonal palette and every role of both output schemes) satisfies
any predicate V that holds of all input color values and of the formatted
form of every in-gamut color — in particular, with V the in-gamut-hex
property, every output color is an in-gamut hex color. Uses the culori
contracts that conversion of a hex color lands in gamut and that chroma
clamping lands in gamut. -/
theorem claim_C2_gamut_closure (E : ColorOps κ) (V : κ → Prop)
    (s : ColorScheme κ) (opts : ProcessOptions) (out : ColorScheme κ)
    (hout : processColorScheme E s opts = some out)
    (hin : ∀ v ∈ allColorValues s, V v)
    (hfmt : ∀ c, E.inGamut c = true → V (E.formatHex c))
    (htg : ∀ k c, E.toOklch k = some c → E.inGamut c = true)
    (hclg : ∀ c c₂, E.clampChroma c = some c₂ → E.inGamut c₂ = true) :
    ∀ v ∈ allColorValues out, V v := by
  cases hpres : opts.preserveHue with
  | false =>
      have hps : processColorScheme E s opts = some s := by
        simp [processColorScheme, hpres]
      rw [hps] at hout
      rw [← Option.some.inj hout]
      exact hin
  | true =>
      simp only [processColorScheme, hpres, Bool.not_true,
        Bool.false_eq_true, if_false] at hout
      cases hp : s.tonalPalettes with
      | none =>
          rw [hp] at hout
          rw [← Option.some.inj hout]
          exact hin
      | some pals =>
          rw [hp] at hout
          have hinPals : ∀ v ∈ palsValues pals, V v := by
            intro v hv
            refine hin v ?_
            simp only [allColorValues, hp, Option.getD_some, List.mem_append]
            exact Or.inl (Or.inl hv)
          have hprocVals : ∀ v ∈ palsValues
              (processAffected E (s.sourceColors.getD [])
                opts.neutralHueFromPrimary opts.affectedPalettes pals),
              V v := by
            intro v hv
            rcases processAffected_values E V (s.sourceColors.getD [])
              opts.neutralHueFromPrimary pals htg hclg hfmt
              opts.affectedPalettes pals (fun v₂ hv₂ => Or.inl hv₂) v hv
              with h | h
            · exact hinPals v h
            · exact h
          cases hs : s.schemes with
          | none =>
              rw [hs] at hout
              rw [← Option.some.inj hout]
              intro v hv
              simp only [allColorValues, Option.getD_some, Option.getD_none,
                List.mem_append, List.map_nil, List.not_mem_nil,
                or_false] at hv
              exact hprocVals v hv
          | some sch₀ =>
              rw [hs] at hout
              simp only at hout
              have hinLight : ∀ v ∈ schemeValues sch₀.light, V v := by
                intro v hv
                refine hin v ?_
                simp only [allColorValues, hp, hs, Option.getD_some,
                  List.mem_append]
                exact Or.inl (Or.inr (Or.inl hv))
              have hinDark : ∀ v ∈ schemeValues sch₀.dark, V v := by
                intro v hv
                refine hin v ?_
                simp only [allColorValues, hp, hs, Option.getD_some,
                  List.mem_append]
                exact Or.inl (Or.inr (Or.inr hv))
              cases hlight : regenerateSchemeColors E sch₀.light pals
                  (processAffected E (s.sourceColors.getD [])
                    opts.neutralHueFromPrimary opts.affectedPalettes
                    pals) with
              | none => rw [hlight] at hout; exact absurd hout (by simp)
              | some l₂ =>
                  cases hdark : regenerateSchemeColors E sch₀.dark pals
                      (processAffected E (s.sourceColors.getD [])
                        opts.neutralHueFromPrimary opts.affectedPalettes
                        pals) with
                  | none =>
                      rw [hlight, hdark] at hout
                      exact absurd hout (by simp)
                  | some d₂ =>
                      rw [hlight, hdark] at hout
                      rw [← Option.some.inj hout]
                      intro v hv
                      simp only [allColorValues, Option.getD_some,
                        Option.getD_none, List.mem_append, List.map_nil,
                        List.not_mem_nil, or_false] at hv
                      rcases hv with hv | hv | hv
                      · exact hprocVals v hv
                      · exact regenerateSchemeColors_values E V pals _
                          hclg hfmt hprocVals sch₀.light l₂ hlight
                          hinLight v hv
                      · exact regenerateSchemeColors_values E V pals _
                          hclg hfmt hprocVals sch₀.dark d₂ hdark
                          hinDark v hv

/-- Engine whose gamut is the set of colors with a defined hue; conversion
and clamping fail on achromatic colors. Used to witness the gamut-closure
theorem without rational arithmetic. -/
def hueEngine : ColorOps Oklch where
  toOklch := fun k => if k.h = none then none else some k
  inGamut := fun c => decide (c.h ≠ none)
  clampChroma := fun c => if c.h = none then none else some c
  formatHex := fun c => c
  truthy := fun _ => true

/-- Witness for C2 on the defined-hue engine at the errEx input, with V
the defined-hue (in-gamut) property, instantiated at the output value of
the error role. -/
theorem claim_C2_gamut_closure_witness : hue120.h ≠ none :=
  claim_C2_gamut_closure hueEngine (fun c => c.h ≠ none) errEx {}
    (ColorScheme.mk (some [("error", [("50", hue120)])])
      (some ⟨some [("error", hue120)], none⟩) none []) rfl
    (by decide)
    (fun c h => of_decide_eq_true h)
    (fun k c h => by
      by_cases hk : k.h = none
      · rw [show hueEngine.toOklch k = if k.h = none then none else some k
          from rfl, if_pos hk] at h
        exact absurd h (by simp)
      · rw [show hueEngine.toOklch k = if k.h = none then none else some k
          from rfl, if_neg hk] at h
        rw [← Option.some.inj h]
        exact decide_eq_true hk)
    (fun c c₂ h => by
      by_cases hc : c.h = none
      · rw [show hueEngine.clampChroma c = if c.h = none then none else some c
          from rfl, if_pos hc] at h
        exact absurd h (by simp)
      · rw [show hueEngine.clampChroma c = if c.h = none then none else some c
          from rfl, if_neg hc] at h
        rw [← Option.some.inj h]
        exact decide_eq_true hc)
    hue120 (by decide)

end BMTB
